import Mathlib

/-!
Verification development for the ProcessAgent machining pipeline.

The Python pipeline (planner → validator → generator → validator,
coordinated by `Orchestrator.run`) is shallowly embedded here:

* Python values that flow through the untyped parts of the pipeline
  (part specifications, plan-step dictionaries, the knowledge base) are
  modelled by the inductive type `Val` (numbers, strings, lists,
  string-keyed dictionaries, None).  Python `int` and `float` are both
  carried by `Val.num : ℚ`; the two are indistinguishable for every
  comparison, truthiness test and `isinstance(x, (int, float))` check the
  pipeline performs, and the decimal rendering of floats (which the claims
  never inspect) is abstracted by `renderQ`.
* Fallible Python code is embedded in `Except PyErr`; the constructors of
  `PyErr` record which exception class is raised, because
  `CodeAgent.generate_pseudo_gcode` catches `ValueError` (and only
  `ValueError`) around its material lookup.
* Python dictionaries are association lists iterated in insertion order,
  matching Python's ordered dicts; a well-formed Python dict has no
  duplicate keys, and theorems that quantify over tables assume that where
  it matters.
-/

namespace ProcessAgent

/-- JSON-like Python runtime values flowing through the pipeline. -/
inductive Val : Type where
  | num (q : ℚ)
  | str (s : String)
  | list (xs : List Val)
  | dict (kvs : List (String × Val))
  | null

/-- Python dictionaries with string keys, as used for part specs, plan
steps and knowledge-base records. -/
abbrev Dict := List (String × Val)

/-- The Python exceptions the pipeline raises or catches. -/
inductive PyErr : Type where
  | valueError (msg : String)
  | typeError (msg : String)
  | attributeError (msg : String)
  | indexError (msg : String)
  | keyError (msg : String)

/-- `str(e)` of a caught exception, as interpolated into the
orchestrator's error strings. -/
def PyErr.msg : PyErr → String
  | .valueError m => m
  | .typeError m => m
  | .attributeError m => m
  | .indexError m => m
  | .keyError m => m

/-- First-match association-list lookup: `d[k]` / `d.get(k)` on a Python
dict whose keys are unique. -/
def dictFind? (d : Dict) (k : String) : Option Val :=
  (d.find? (fun p => p.1 == k)).map (·.2)

/-- `d.get(k, dflt)` on a dict: the stored value (even `None`) when the
key is present, the default when it is absent. -/
def dictGetD (d : Dict) (k : String) (dflt : Val) : Val :=
  (dictFind? d k).getD dflt

/-- `v.get(k, dflt)` on an arbitrary value: dictionaries answer, anything
else raises `AttributeError` as in Python. -/
def Val.get (v : Val) (k : String) (dflt : Val) : Except PyErr Val :=
  match v with
  | .dict d => .ok (dictGetD d k dflt)
  | _ => .error (.attributeError "object has no attribute get")

/-- Python `v == s` for a string literal `s`: true only for an equal
string (numbers, lists, dicts and None never equal a string). -/
def Val.eqStr (v : Val) (s : String) : Bool :=
  match v with
  | .str t => t == s
  | _ => false

/-- Python `len(v)`: sized for lists, strings and dicts, `TypeError`
otherwise (in particular for `None`). -/
def pyLen : Val → Except PyErr ℕ
  | .list xs => .ok xs.length
  | .str s => .ok s.length
  | .dict d => .ok d.length
  | .num _ => .error (.typeError "object of type int has no len()")
  | .null => .error (.typeError "object of type NoneType has no len()")

/-- Python truthiness of a value. -/
def truthy : Val → Bool
  | .num q => q != 0
  | .str s => s != ""
  | .list xs => !xs.isEmpty
  | .dict d => !d.isEmpty
  | .null => false

/-- Python `a or b`. -/
def pyOr (a b : Val) : Val := if truthy a then a else b

/-- Python `int()` truncation toward zero of a numeric value. -/
def pyTrunc (q : ℚ) : ℤ := if 0 ≤ q then ⌊q⌋ else ⌈q⌉

/-- A numeral rendered the way the f-strings of the pipeline render it:
integer values without a fractional part, other rationals as fractions
(the exact decimal text of Python floats is abstracted; no claim inspects
it). -/
def renderQ (q : ℚ) : String :=
  if q.den = 1 then toString q.num else toString q

mutual

/-- Python `str(v)`, as used by f-string interpolation in log and error
messages.  Quoting inside list/dict renderings is abstracted. -/
def Val.pyStr : Val → String
  | .num q => renderQ q
  | .str s => s
  | .null => "None"
  | .list xs => "[" ++ String.intercalate ", " (pyStrList xs) ++ "]"
  | .dict kvs => "\x7b" ++ String.intercalate ", " (pyStrPairs kvs) ++ "\x7d"

/-- Renders each element of a list value (helper for `Val.pyStr`). -/
def pyStrList : List Val → List String
  | [] => []
  | v :: vs => v.pyStr :: pyStrList vs

/-- Renders each value of a dict (helper for `Val.pyStr`). -/
def pyStrPairs : List (String × Val) → List String
  | [] => []
  | p :: ps => p.2.pyStr :: pyStrPairs ps

end

/-- Digits-only unsigned decimal parser, helper for `pyFloatOf`/`pyIntOf`
on strings. -/
def parseDigits : List Char → Option ℕ
  | [] => none
  | cs =>
    cs.foldl (fun acc c =>
      match acc with
      | none => none
      | some n => if c.isDigit then some (n * 10 + (c.toNat - 48)) else none)
      (some 0)

/-- Python `float(v)`: numbers pass through, simple decimal strings parse
(sign, digits, optional fraction), `None` and other shapes raise
`TypeError`, non-numeric strings raise `ValueError`. -/
def pyFloatOf : Val → Except PyErr ℚ
  | .num q => .ok q
  | .str s =>
    let cs := s.data
    let (sgn, body) : ℚ × List Char :=
      match cs with
      | '-' :: rest => (-1, rest)
      | _ => (1, cs)
    (match body.splitOn '.' with
     | [w] =>
       match parseDigits w with
       | some n => .ok (sgn * n)
       | none => .error (.valueError "could not convert string to float")
     | [w, f] =>
       match parseDigits w, parseDigits f with
       | some n, some m => .ok (sgn * (n + (m : ℚ) / ((10 : ℚ) ^ f.length)))
       | _, _ => .error (.valueError "could not convert string to float")
     | _ => .error (.valueError "could not convert string to float"))
  | .null => .error (.typeError "float() argument must be a number, not NoneType")
  | _ => .error (.typeError "float() argument must be a number")

/-- Python `int(v)`: truncates numbers toward zero, parses integer
strings, raises `TypeError` on `None`, lists and dicts. -/
def pyIntOf : Val → Except PyErr ℤ
  | .num q => .ok (pyTrunc q)
  | .str s =>
    let cs := s.data
    let (sgn, body) : ℤ × List Char :=
      match cs with
      | '-' :: rest => (-1, rest)
      | _ => (1, cs)
    (match parseDigits body with
     | some n => .ok (sgn * n)
     | none => .error (.valueError "invalid literal for int()"))
  | .null => .error (.typeError "int() argument must be a number, not NoneType")
  | _ => .error (.typeError "int() argument must be a number")

/-- Python subscription `v[i]` for a natural index. -/
def pySubscript (v : Val) (i : ℕ) : Except PyErr Val :=
  match v with
  | .list xs =>
    match xs.get? i with
    | some x => .ok x
    | none => .error (.indexError "list index out of range")
  | .str s =>
    match s.data.get? i with
    | some c => .ok (.str ⟨[c]⟩)
    | none => .error (.indexError "string index out of range")
  | _ => .error (.typeError "object is not subscriptable")

/-- Python iteration (`for x in v`): lists yield elements, strings yield
one-character strings, dicts yield their keys, anything else raises. -/
def pyIterate : Val → Except PyErr (List Val)
  | .list xs => .ok xs
  | .str s => .ok (s.data.map fun c => .str ⟨[c]⟩)
  | .dict d => .ok (d.map fun p => .str p.1)
  | _ => .error (.typeError "object is not iterable")

/-- Python `v <= q₀` against a numeric literal: decides for numbers,
raises `TypeError` otherwise. -/
def pyLe (v : Val) (q₀ : ℚ) : Except PyErr Bool :=
  match v with
  | .num q => .ok (decide (q ≤ q₀))
  | _ => .error (.typeError "comparison not supported between instances")

/-- Python `max(v, q₀)` against a numeric literal: raises `TypeError` on
non-numbers, as comparing them does. -/
def pyMax (v : Val) (q₀ : ℚ) : Except PyErr ℚ :=
  match v with
  | .num q => .ok (max q q₀)
  | _ => .error (.typeError "comparison not supported between instances")

/-- `"\n".join(lines)` as the generator performs it. -/
def joinLines : List String → String
  | [] => ""
  | [l] => l
  | l :: l' :: ls => l ++ "\n" ++ joinLines (l' :: ls)

/-- `pat` starts the character list `s` (helper for the substring test). -/
def startsWithL : List Char → List Char → Bool
  | [], _ => true
  | _ :: _, [] => false
  | p :: ps, c :: cs => p == c && startsWithL ps cs

/-- `pat` occurs as a contiguous run inside `s` (helper for the substring
test). -/
def infixL (pat : List Char) : List Char → Bool
  | [] => pat.isEmpty
  | c :: cs => startsWithL pat (c :: cs) || infixL pat cs

/-- Python `pat in s` on strings: contiguous-substring membership. -/
def containsSub (s pat : String) : Bool := infixL pat.data s.data

/-- Python `s.strip()` on the character level: leading and trailing
whitespace removed. -/
def stripChars (cs : List Char) : List Char :=
  ((cs.dropWhile Char.isWhitespace).reverse.dropWhile Char.isWhitespace).reverse

/-- The machining knowledge base: the three top-level tables of
`machining_db.json` (`materials`, `tools`, `operations`), loaded once and
read-only, each a dict of record dicts. -/
structure MachiningDB : Type where
  materials : Dict
  tools : Dict
  operations : Dict

/-- Modelled from the spec: the repository's `data/machining_db.json` is
not among the source files; this knowledge base follows the spec's data
model (§3: `materials` key → recommended rpm/feed, `tools` key → type and
diameter, `operations` key → default tool), the material and tool names
the spec's scenarios use (`aluminum_6061`, `steel_1018`, `drill_3mm`,
`drill_6mm`, `drill_10mm`, `endmill_6mm`), and the rpm/feed figures of
the planner's own prompt example (12000 rpm / 800 mm/min for aluminum).
Theorems quantified over the knowledge base use it only as a witness. -/
def machining_db : MachiningDB :=
  { materials :=
      [("aluminum_6061", .dict [("recommended_rpm", .num 12000),
                                ("recommended_feed_mm_per_min", .num 800)]),
       ("steel_1018", .dict [("recommended_rpm", .num 6000),
                             ("recommended_feed_mm_per_min", .num 300)])],
    tools :=
      [("endmill_6mm", .dict [("type", .str "endmill"), ("diameter_mm", .num 6)]),
       ("drill_3mm", .dict [("type", .str "drill"), ("diameter_mm", .num 3)]),
       ("drill_6mm", .dict [("type", .str "drill"), ("diameter_mm", .num 6)]),
       ("drill_10mm", .dict [("type", .str "drill"), ("diameter_mm", .num 10)])],
    operations :=
      [("face_milling", .dict [("default_tool", .str "endmill_6mm")]),
       ("drilling", .dict [("default_tool", .str "drill_6mm")])] }

/-! ## ValidatorAgent (`src/process_agent/agents/validator_agent.py`)

`ValidatorAgent.validate(plan, gcode)` builds an error list by appending,
in source order: the plan-emptiness check, the G-code checks (an
`if`/`elif` chain, so at most one of the three fires), and the per-step
checks; it returns `(len(errors) == 0, errors)`.  The per-step loop can
raise `TypeError` out of the operation-specific `depth <= 0` comparisons
when `depth_mm` holds a non-numeric, non-None value, so the embedding
lives in `Except PyErr`.  The step messages use Python's 1-based
`idx+1`. -/

/-- The `operation` membership test `op not in {"face_milling",
"drilling"}`; an unhashable `op` (list/dict) raises as in Python. -/
def op_check (n : ℕ) (op : Val) : Except PyErr (List String) :=
  match op with
  | .list _ => .error (.typeError "unhashable type: 'list'")
  | .dict _ => .error (.typeError "unhashable type: 'dict'")
  | v =>
    .ok (if v.eqStr "face_milling" || v.eqStr "drilling" then []
         else [s!"Step {n}: Unsupported operation '{Val.pyStr v}'"])

/-- The generic `depth_mm` check: flagged when present and either not a
number or not positive. -/
def depth_check (n : ℕ) (depth : Val) : List String :=
  match depth with
  | .null => []
  | .num q => if q ≤ 0 then [s!"Step {n}: depth_mm must be > 0 (got {renderQ q})"] else []
  | v => [s!"Step {n}: depth_mm must be > 0 (got {Val.pyStr v})"]

/-- The optional `tool` check: present values must be non-blank strings. -/
def tool_check (n : ℕ) (tool : Val) : List String :=
  match tool with
  | .null => []
  | .str s => if (stripChars s.data).isEmpty then
      [s!"Step {n}: Invalid tool identifier (got {s})"] else []
  | v => [s!"Step {n}: Invalid tool identifier (got {Val.pyStr v})"]

/-- The optional `rpm` check: present values must be numbers `> 0`. -/
def rpm_check (n : ℕ) (rpm : Val) : List String :=
  match rpm with
  | .null => []
  | .num q => if q ≤ 0 then [s!"Step {n}: Invalid RPM value (got {renderQ q}, must be > 0)"] else []
  | v => [s!"Step {n}: Invalid RPM value (got {Val.pyStr v}, must be > 0)"]

/-- The optional `feed_rate_mm_per_min` check: present values must be
numbers `> 0`. -/
def feed_check (n : ℕ) (feed : Val) : List String :=
  match feed with
  | .null => []
  | .num q =>
    if q ≤ 0 then [s!"Step {n}: Invalid feed_rate_mm_per_min value (got {renderQ q}, must be > 0)"]
    else []
  | v => [s!"Step {n}: Invalid feed_rate_mm_per_min value (got {Val.pyStr v}, must be > 0)"]

/-- The face-milling requirement `depth is None or depth <= 0`; comparing
a non-numeric present depth raises `TypeError` as in Python. -/
def face_check (n : ℕ) (depth : Val) : Except PyErr (List String) :=
  match depth with
  | .null => .ok [s!"Step {n}: face_milling requires depth_mm > 0"]
  | .num q => .ok (if q ≤ 0 then [s!"Step {n}: face_milling requires depth_mm > 0"] else [])
  | _ => .error (.typeError "comparison not supported between instances")

/-- The drilling requirements: `diameter_mm` a positive number,
`position` a two-element list (entry types are not inspected), and
`depth_mm` positive (raising on a non-numeric present depth). -/
def drill_check (n : ℕ) (step : Dict) (depth : Val) : Except PyErr (List String) := do
  let dia := dictGetD step "diameter_mm" .null
  let pos := dictGetD step "position" .null
  let e1 :=
    match dia with
    | .num q => if q ≤ 0 then [s!"Step {n}: drilling requires diameter_mm > 0 (got {renderQ q})"] else []
    | v => [s!"Step {n}: drilling requires diameter_mm > 0 (got {Val.pyStr v})"]
  let e2 :=
    match pos with
    | .list xs => if xs.length = 2 then [] else [s!"Step {n}: drilling requires position [x, y] (got {Val.pyStr (Val.list xs)})"]
    | v => [s!"Step {n}: drilling requires position [x, y] (got {Val.pyStr v})"]
  let e3 ←
    match depth with
    | .null => pure [s!"Step {n}: drilling requires depth_mm > 0"]
    | .num q => pure (if q ≤ 0 then [s!"Step {n}: drilling requires depth_mm > 0"] else [])
    | _ => Except.error (.typeError "comparison not supported between instances")
  return e1 ++ e2 ++ e3

/-- All checks of one loop iteration of `ValidatorAgent.validate`, in
source order (`n` is the 1-based step number used in messages). -/
def step_errors (n : ℕ) (step : Dict) : Except PyErr (List String) := do
  let op := dictGetD step "operation" .null
  let e_op ← op_check n op
  let depth := dictGetD step "depth_mm" .null
  let e_depth := depth_check n depth
  let e_tool := tool_check n (dictGetD step "tool" .null)
  let e_rpm := rpm_check n (dictGetD step "rpm" .null)
  let e_feed := feed_check n (dictGetD step "feed_rate_mm_per_min" .null)
  let e_spec ←
    if op.eqStr "face_milling" then face_check n depth
    else if op.eqStr "drilling" then drill_check n step depth
    else pure []
  return e_op ++ e_depth ++ e_tool ++ e_rpm ++ e_feed ++ e_spec

/-- The validator's step loop, accumulating each step's errors in order
(`n` is the 1-based number of the first step of the suffix). -/
def plan_step_errors (n : ℕ) : List Dict → Except PyErr (List String)
  | [] => .ok []
  | s :: rest => do
    let e ← step_errors n s
    let es ← plan_step_errors (n + 1) rest
    return e ++ es

/-- The G-code structural checks of `ValidatorAgent.validate`: an
`if`/`elif` chain, so at most one message is produced. -/
def gcode_errors (g : String) : List String :=
  if g = "" then ["G-code is empty"]
  else if !containsSub g "PSEUDO-GCODE" then ["G-code missing header (PSEUDO-GCODE marker)"]
  else if !containsSub g "M30" then ["G-code missing terminator (M30)"]
  else []

/-- The optional program-text checks: nothing when no text is supplied. -/
def gcode_errors_opt : Option String → List String
  | none => []
  | some g => gcode_errors g

/-- `ValidatorAgent.validate(plan, gcode)`: plan-emptiness check, then
(G-code checks when a program text is supplied), then the per-step loop;
returns `(len(errors) == 0, errors)`. -/
def validate (plan : List Dict) (gcode : Option String) : Except PyErr (Bool × List String) := do
  let e1 := if plan.isEmpty then ["Plan is empty"] else []
  let e2 := gcode_errors_opt gcode
  let e3 ← plan_step_errors 1 plan
  let errors := e1 ++ e2 ++ e3
  return (errors.isEmpty, errors)

/-! ## CodeAgent (`src/process_agent/agents/code_agent.py`)

`CodeAgent.generate_pseudo_gcode(plan, material)` builds the program as a
list of lines, then joins them with newlines.  `_material_params` raises
`ValueError` for an unknown material; the generator catches exactly that
and substitutes `(1000, 100)`.  `_pick_tool_for_drilling` tries the exact
`drill_{int(d)}mm` key and otherwise takes the first drill-type record of
minimal `|diameter - d|` in table order (Python's `min` keeps the first
minimum). -/

/-- The candidate scan of `_pick_tool_for_drilling`: the `(key, float
diameter)` pairs of records whose `type` is `"drill"` and whose
`diameter_mm` is numeric, in table order; a non-dict record raises
`AttributeError` at its `.get`, as in Python. -/
def drill_candidates : Dict → Except PyErr (List (String × ℚ))
  | [] => .ok []
  | (k, meta) :: rest => do
    let t ← meta.get "type" .null
    let dV ← meta.get "diameter_mm" .null
    let tail ← drill_candidates rest
    match dV with
    | .num q => return (if t.eqStr "drill" then (k, q) :: tail else tail)
    | _ => return tail

/-- Python `min(candidates, key=lambda kv: abs(kv[1] - d))`: the running
minimum is replaced only on strict decrease, so the first minimal
candidate in list order wins. -/
def min_by_dist (d : ℚ) (c : String × ℚ) (cs : List (String × ℚ)) : String × ℚ :=
  cs.foldl (fun best kv => if |kv.2 - d| < |best.2 - d| then kv else best) c

/-- `CodeAgent._pick_tool_for_drilling(diameter_mm)`. -/
def pick_tool_for_drilling (db : MachiningDB) (diameter_mm : ℚ) : Except PyErr (String × Val) :=
  let tools := db.tools
  let preferred_key := "drill_" ++ toString (pyTrunc diameter_mm) ++ "mm"
  match dictFind? tools preferred_key with
  | some r => .ok (preferred_key, r)
  | none => do
    let candidates ← drill_candidates tools
    match candidates with
    | [] => Except.error (.valueError "No drill tools available in DB")
    | c :: cs =>
      let closest := min_by_dist diameter_mm c cs
      match dictFind? tools closest.1 with
      | some r => .ok (closest.1, r)
      | none => Except.error (.keyError closest.1)

/-- `CodeAgent._material_params(material_key)`: `ValueError` when the key
is not in the materials table, otherwise the record's recommended rpm and
feed coerced with `int()` (with defaults 1000 / 100 for absent fields).
The key is the value the orchestrator fetched from the spec, so it can be
any Python value; an unhashable one raises at the membership test. -/
def material_params (db : MachiningDB) (material_key : Val) : Except PyErr (ℤ × ℤ) := do
  let found ←
    match material_key with
    | .str s => pure (dictFind? db.materials s)
    | .num _ => pure none
    | .null => pure none
    | .list _ => Except.error (.typeError "unhashable type: 'list'")
    | .dict _ => Except.error (.typeError "unhashable type: 'dict'")
  match found with
  | none => Except.error (.valueError s!"Unknown material: {Val.pyStr material_key}")
  | some md => do
    let rpm ← pyIntOf (← md.get "recommended_rpm" (.num 1000))
    let feed ← pyIntOf (← md.get "recommended_feed_mm_per_min" (.num 100))
    return (rpm, feed)

/-- The generator's opening `try`: material parameters with the
`except ValueError` fallback to `(1000, 100)`. -/
def default_params (db : MachiningDB) (material : Val) : Except PyErr (ℤ × ℤ) :=
  match material_params db material with
  | .ok p => .ok p
  | .error (.valueError _) => .ok (1000, 100)
  | .error e => .error e

/-- Three-digit zero padding for the fractional part of `fmt3`. -/
def pad3 (n : ℕ) : String :=
  if n < 10 then s!"00{n}" else if n < 100 then s!"0{n}" else toString n

/-- The `:.3f` coordinate formatting of the generator, as rounding to the
nearest thousandth of the exact rational (Python rounds the nearest
binary double; no claim inspects the digits). -/
def fmt3 (q : ℚ) : String :=
  let m : ℤ := round (q * 1000)
  (if m < 0 then "-" else "") ++ toString (m.natAbs / 1000) ++ "." ++ pad3 (m.natAbs % 1000)

/-- The generator's rpm fallback `int(step_rpm) if step_rpm else
default_rpm`. -/
def resolve_rpm (step_rpm : Val) (default_rpm : ℤ) : Except PyErr ℤ :=
  if truthy step_rpm then pyIntOf step_rpm else pure default_rpm

/-- The generator's feed fallback `float(step_feed) if step_feed else
default_feed`. -/
def resolve_feed (step_feed : Val) (default_feed : ℤ) : Except PyErr ℚ :=
  if truthy step_feed then pyFloatOf step_feed else pure (default_feed : ℚ)

/-- One iteration of the generator's step loop: the per-step rpm/feed
resolution (step value when truthy, material default otherwise), then the
face-milling block, the drilling block, or the unsupported-operation
comment. -/
def step_lines (db : MachiningDB) (default_rpm default_feed : ℤ) (step : Dict) :
    Except PyErr (List String) := do
  let op := dictGetD step "operation" .null
  let rpm : ℤ ← resolve_rpm (dictGetD step "rpm" .null) default_rpm
  let feed : ℚ ← resolve_feed (dictGetD step "feed_rate_mm_per_min" .null) default_feed
  let tool := dictGetD step "tool" (.str "unknown")
  if op.eqStr "face_milling" then do
    let depth ← pyFloatOf (dictGetD step "depth_mm" (.num (2/10)))
    return ["; -- Face Milling (Tool: " ++ Val.pyStr tool ++ ", RPM: " ++ toString rpm ++ ", Feed: " ++ renderQ feed ++ " mm/min) --",
            "G00 X0 Y0 Z5",
            "G01 Z-" ++ fmt3 depth ++ " F" ++ renderQ feed,
            "G01 X50 Y0",
            "G01 X50 Y50",
            "G01 X0 Y50",
            "G01 X0 Y0",
            "G00 Z5"]
  else if op.eqStr "drilling" then do
    let dia ← pyFloatOf (dictGetD step "diameter_mm" (.num 3))
    let depth ← pyFloatOf (dictGetD step "depth_mm" (.num 10))
    let pos := dictGetD step "position" (.list [.num 0, .num 0])
    let x ← pyFloatOf (← pySubscript pos 0)
    let y ← pyFloatOf (← pySubscript pos 1)
    let pair ←
      if truthy tool && !(tool.eqStr "unknown") then
        match tool with
        | .str s => pure (tool, dictGetD db.tools s (.dict []))
        | .num _ => pure (tool, Val.dict [])
        | .list _ => Except.error (.typeError "unhashable type: 'list'")
        | .dict _ => Except.error (.typeError "unhashable type: 'dict'")
        | .null => pure (tool, Val.dict [])
      else do
        let km ← pick_tool_for_drilling db dia
        pure (Val.str km.1, km.2)
    let diaTxt ← pair.2.get "diameter_mm" (.str "?")
    return ["; -- Drilling (Tool: " ++ Val.pyStr pair.1 ++ " DIA " ++ Val.pyStr diaTxt ++ "mm, RPM: " ++ toString rpm ++ ", Feed: " ++ renderQ feed ++ " mm/min) --",
            "G00 X" ++ fmt3 x ++ " Y" ++ fmt3 y ++ " Z5",
            "G01 Z-" ++ fmt3 depth ++ " F" ++ renderQ feed,
            "G00 Z5"]
  else
    return ["; Unsupported operation: " ++ Val.pyStr op]

/-- `plan[0].get("rpm") if plan else None`. -/
def first_rpm : List Dict → Val
  | [] => Val.null
  | s :: _ => dictGetD s "rpm" .null

/-- `CodeAgent.generate_pseudo_gcode` as the list of lines it appends:
header comment, material comment, mode directive, spindle start (first
step's truthy rpm or the material default), the per-step blocks, spindle
stop and program end. -/
def generate_lines (db : MachiningDB) (plan : List Dict) (material : Val) :
    Except PyErr (List String) := do
  let dp ← default_params db material
  let initial_rpm : ℤ ← resolve_rpm (first_rpm plan) dp.1
  let stepLs ← plan.mapM (step_lines db dp.1 dp.2)
  return ["; PSEUDO-GCODE GENERATED", "; MATERIAL: " ++ Val.pyStr material, "G90 G21",
          "M03 S" ++ toString initial_rpm] ++ stepLs.flatten ++ ["M05", "M30"]

/-- `CodeAgent.generate_pseudo_gcode(plan, material)`: the joined program
text. -/
def generate_pseudo_gcode (db : MachiningDB) (plan : List Dict) (material : Val) :
    Except PyErr String := do
  let ls ← generate_lines db plan material
  return joinLines ls

/-! ## Schemas and rule-based planner
(`src/process_agent/core/schemas.py`,
`src/process_agent/agents/llm_planner.py`)

`PlanStep` is the pydantic model; constructing one validates every
supplied field (`gt=0` bounds, two numeric position coordinates, string
tool/notes with the 500-character notes cap, integral positive rpm).
pydantic's `ValidationError` subclasses `ValueError`, so a failed
construction surfaces as `PyErr.valueError`.  In this deployment the LLM
is not configured (`use_llm` resolves to false), so
`PlannerAgent.plan_process` always takes
`LLMPlannerAgent._rule_based_plan_process`. -/

/-- A validated plan step (the pydantic `PlanStep` model).  `rpm` is kept
as a rational that pydantic has checked to be integral. -/
structure PlanStep : Type where
  operation : String
  depth_mm : Option ℚ := none
  diameter_mm : Option ℚ := none
  position : Option (List ℚ) := none
  tool : Option String := none
  rpm : Option ℚ := none
  feed_rate_mm_per_min : Option ℚ := none
  notes : Option String := none

/-- Coordinates of a position list when every entry is numeric (pydantic
coercion of `list[float]` entries; the planner only ever supplies numeric
or malformed entries, never numeric strings). -/
def numListOf? : List Val → Option (List ℚ)
  | [] => some []
  | .num q :: rest => (numListOf? rest).map (q :: ·)
  | _ => none

/-- The pydantic validation performed by a `PlanStep(...)` constructor
call: each keyword argument the planner supplies (`some v`) is checked
and coerced; omitted fields (`none`) default to `None`.  A violated
constraint raises `ValidationError`, a `ValueError` subclass. -/
def mkPlanStep (operation : String) (depth_mm diameter_mm position tool rpm
    feed_rate_mm_per_min notes : Option Val) : Except PyErr PlanStep := do
  let depthQ : Option ℚ ←
    match depth_mm with
    | none => pure none
    | some (.num q) =>
      if 0 < q then pure (some q)
      else Except.error (.valueError "validation error for PlanStep: depth_mm")
    | some _ => Except.error (.valueError "validation error for PlanStep: depth_mm")
  let diaQ : Option ℚ ←
    match diameter_mm with
    | none => pure none
    | some (.num q) =>
      if 0 < q then pure (some q)
      else Except.error (.valueError "validation error for PlanStep: diameter_mm")
    | some _ => Except.error (.valueError "validation error for PlanStep: diameter_mm")
  let posQ : Option (List ℚ) ←
    match position with
    | none => pure none
    | some (.list xs) =>
      (match numListOf? xs with
       | some qs =>
         if qs.length = 2 then pure (some qs)
         else Except.error (.valueError "validation error for PlanStep: position")
       | none => Except.error (.valueError "validation error for PlanStep: position"))
    | some _ => Except.error (.valueError "validation error for PlanStep: position")
  let toolS : Option String ←
    match tool with
    | none => pure none
    | some (.str s) => pure (some s)
    | some _ => Except.error (.valueError "validation error for PlanStep: tool")
  let rpmQ : Option ℚ ←
    match rpm with
    | none => pure none
    | some (.num q) =>
      if 0 < q ∧ q.den = 1 then pure (some q)
      else Except.error (.valueError "validation error for PlanStep: rpm")
    | some _ => Except.error (.valueError "validation error for PlanStep: rpm")
  let feedQ : Option ℚ ←
    match feed_rate_mm_per_min with
    | none => pure none
    | some (.num q) =>
      if 0 < q then pure (some q)
      else Except.error (.valueError "validation error for PlanStep: feed_rate_mm_per_min")
    | some _ => Except.error (.valueError "validation error for PlanStep: feed_rate_mm_per_min")
  let notesS : Option String ←
    match notes with
    | none => pure none
    | some (.str s) =>
      if s.length ≤ 500 then pure (some s)
      else Except.error (.valueError "validation error for PlanStep: notes")
    | some _ => Except.error (.valueError "validation error for PlanStep: notes")
  return { operation := operation, depth_mm := depthQ, diameter_mm := diaQ,
           position := posQ, tool := toolS, rpm := rpmQ,
           feed_rate_mm_per_min := feedQ, notes := notesS }

/-- `step.model_dump()`: every field of the model, in declaration order,
with `None` for absent optionals. -/
def PlanStep.dump (p : PlanStep) : Dict :=
  [("operation", .str p.operation),
   ("depth_mm", match p.depth_mm with | none => .null | some q => .num q),
   ("diameter_mm", match p.diameter_mm with | none => .null | some q => .num q),
   ("position", match p.position with | none => .null | some l => .list (l.map .num)),
   ("tool", match p.tool with | none => .null | some s => .str s),
   ("rpm", match p.rpm with | none => .null | some q => .num q),
   ("feed_rate_mm_per_min", match p.feed_rate_mm_per_min with | none => .null | some q => .num q),
   ("notes", match p.notes with | none => .null | some s => .str s)]

/-- The inline tool-selection block of the hole loop of
`_rule_based_plan_process`: the exact `drill_{int(diameter)}mm` key when
bound, else the first-minimal drill candidate, else the literal
`"drill_3mm"` fallback (the planner, unlike the Program Generator, never
raises here).  The planner's inline candidate comprehension collects
exactly the pairs `drill_candidates` collects. -/
def rule_pick_tool (db : MachiningDB) (diameter : Val) : Except PyErr String := do
  let diaInt ← pyIntOf diameter
  let tool_key0 := "drill_" ++ toString diaInt ++ "mm"
  match dictFind? db.tools tool_key0 with
  | some _ => pure tool_key0
  | none => do
    let candidates ← drill_candidates db.tools
    match candidates with
    | [] => pure "drill_3mm"
    | c :: cs => do
      let dq : ℚ ←
        match diameter with
        | .num q => pure q
        | _ => Except.error (.typeError "unsupported operand type")
      pure (min_by_dist dq c cs).1

/-- One iteration of the hole loop of `_rule_based_plan_process`: read
the hole's fields (with defaults), clamp when `diameter <= 0 or depth <=
0` (Python's `or` short-circuits, and `max` on a non-number raises),
pick the drill tool via `rule_pick_tool`, and construct the `PlanStep`. -/
def hole_step (db : MachiningDB) (rpm feed hole : Val) : Except PyErr PlanStep := do
  let diameter0 ← hole.get "diameter_mm" (.num 3)
  let depth0 ← hole.get "depth_mm" (.num 5)
  let position ← hole.get "position" (.list [.num 0, .num 0])
  let dLe ← pyLe diameter0 0
  let clamp ← if dLe then pure true else pyLe depth0 0
  let dd : Val × Val ←
    if clamp then do
      let d' ← pyMax diameter0 3
      let dp' ← pyMax depth0 5
      pure (Val.num d', Val.num dp')
    else pure (diameter0, depth0)
  let diameter := dd.1
  let depth := dd.2
  let tool_key ← rule_pick_tool db diameter
  mkPlanStep "drilling" (some depth) (some diameter) (some position)
    (some (.str tool_key)) (some rpm) (some feed) none

/-- `LLMPlannerAgent._rule_based_plan_process(part_spec)`: material
parameters from the table (hard-coded 1000 / 100 defaults when the
material or its fields are absent — an unknown material does not abort),
one face-milling step with fixed 0.2 mm depth and the operations table's
default face-mill tool, then one drilling step per hole in input order. -/
def rule_based_plan_process (db : MachiningDB) (part_spec : Dict) :
    Except PyErr (List PlanStep) := do
  let material := dictGetD part_spec "material" (.str "aluminum_6061")
  let holes := pyOr (dictGetD part_spec "drill_holes" .null) (.list [])
  let material_data : Val ←
    match material with
    | .str s => pure (dictGetD db.materials s (.dict []))
    | .num _ => pure (Val.dict [])
    | .null => pure (Val.dict [])
    | .list _ => Except.error (.typeError "unhashable type: 'list'")
    | .dict _ => Except.error (.typeError "unhashable type: 'dict'")
  let rpm ← material_data.get "recommended_rpm" (.num 1000)
  let feed ← material_data.get "recommended_feed_mm_per_min" (.num 100)
  let face_mill_tool ← (dictGetD db.operations "face_milling" (.dict [])).get
    "default_tool" (.str "endmill_6mm")
  let first ← mkPlanStep "face_milling" (some (.num (2/10))) none none
    (some face_mill_tool) (some rpm) (some feed)
    (some (.str ("Face top surface for " ++ Val.pyStr material)))
  let holeList ← pyIterate holes
  let drills ← holeList.mapM (hole_step db rpm feed)
  return first :: drills

/-- `PlannerAgent.plan_process(part_spec)` in this deployment: no API key
is configured, so `LLMPlannerAgent.plan_process` has `use_llm = False`
and always delegates to the rule-based fallback. -/
def plan_process (db : MachiningDB) (part_spec : Dict) : Except PyErr (List PlanStep) :=
  rule_based_plan_process db part_spec

/-! ## Orchestrator (`src/process_agent/core/orchestrator.py`)

`Orchestrator.run(spec)` logs, then runs the four phases, each in its own
`try`: any phase failure becomes a returned result with `valid = False`
and a one-element error list.  The logging prelude
`len(spec.get("drill_holes", []))` runs *outside* every `try`, so it can
raise past `run` — the outer `Except` layer of the embedding. -/

/-- The dictionary `Orchestrator.run` returns (the PlanResult shape). -/
structure RunResult : Type where
  plan : List Dict
  gcode : Option String
  valid : Bool
  errors : List String

/-- `Orchestrator.run(spec)`.  The outer `Except` is an exception
escaping `run` itself (only the un-guarded logging prelude can do so);
every in-phase failure is converted to a `RunResult`. -/
def run (db : MachiningDB) (spec : Dict) : Except PyErr RunResult := do
  let material := dictGetD spec "material" (.str "unknown")
  let _drill_holes_count ← pyLen (dictGetD spec "drill_holes" (.list []))
  match plan_process db spec with
  | .error e =>
    return { plan := [], gcode := none, valid := false,
             errors := [s!"Planning error: {PyErr.msg e}"] }
  | .ok steps =>
    let plan := steps.map PlanStep.dump
    match validate plan none with
    | .error e =>
      return { plan := plan, gcode := none, valid := false,
               errors := [s!"Validation error: {PyErr.msg e}"] }
    | .ok (valid, errors) =>
      if !valid then
        return { plan := plan, gcode := none, valid := false, errors := errors }
      else
        match generate_pseudo_gcode db plan material with
        | .error e =>
          return { plan := plan, gcode := none, valid := false,
                   errors := [s!"G-code generation error: {PyErr.msg e}"] }
        | .ok gcode =>
          match validate plan (some gcode) with
          | .error e =>
            return { plan := plan, gcode := some gcode, valid := false,
                     errors := [s!"G-code validation error: {PyErr.msg e}"] }
          | .ok (valid2, errors2) =>
            if !valid2 then
              return { plan := plan, gcode := some gcode, valid := false, errors := errors2 }
            else
              return { plan := plan, gcode := some gcode, valid := true, errors := [] }

/-! ## Predicates and concrete instances used by the claim theorems -/

/-- A well-formed drill hole as the `DrillHole` schema admits it: a dict
whose `diameter_mm` and `depth_mm` are positive numbers and whose
`position` holds exactly two numeric coordinates (read through the same
`.get` defaults the rule-based planner uses). -/
def WFHole (h : Val) : Prop :=
  ∃ hd q d pvs pq, h = .dict hd ∧
    dictGetD hd "diameter_mm" (.num 3) = .num q ∧ 0 < q ∧
    dictGetD hd "depth_mm" (.num 5) = .num d ∧ 0 < d ∧
    dictGetD hd "position" (.list [.num 0, .num 0]) = .list pvs ∧
    numListOf? pvs = some pq ∧ pq.length = 2

/-- The diameter of a (well-formed) hole value. -/
def holeDia (h : Val) : ℚ :=
  match h with
  | .dict hd => match dictGetD hd "diameter_mm" (.num 3) with | .num q => q | _ => 0
  | _ => 0

/-- The depth of a (well-formed) hole value. -/
def holeDepth (h : Val) : ℚ :=
  match h with
  | .dict hd => match dictGetD hd "depth_mm" (.num 5) with | .num q => q | _ => 0
  | _ => 0

/-- The numeric coordinates of a (well-formed) hole value. -/
def holePos (h : Val) : List ℚ :=
  match h with
  | .dict hd =>
    match dictGetD hd "position" (.list [.num 0, .num 0]) with
    | .list pvs => (numListOf? pvs).getD []
    | _ => []
  | _ => []

/-- A well-formed materials table: every record is a dict whose
recommended rpm (default 1000) is a positive integer and whose
recommended feed (default 100) is a positive number — what the real
`machining_db.json` provides. -/
def MaterialsWF (db : MachiningDB) : Prop :=
  ∀ s v, dictFind? db.materials s = some v →
    ∃ md R F, v = .dict md ∧
      dictGetD md "recommended_rpm" (.num 1000) = .num R ∧ 0 < R ∧ R.den = 1 ∧
      dictGetD md "recommended_feed_mm_per_min" (.num 100) = .num F ∧ 0 < F

/-- A well-formed operations table: the face-milling default tool
resolves to a non-blank string (default `"endmill_6mm"`). -/
def OpsWF (db : MachiningDB) : Prop :=
  ∃ fm t, dictGetD db.operations "face_milling" (.dict []) = .dict fm ∧
    dictGetD fm "default_tool" (.str "endmill_6mm") = .str t ∧
    (stripChars t.data).isEmpty = false ∧ t ≠ ""

/-- A successful `run` outcome whose plan is exactly one face-milling
step of depth 0.2 mm (what the spec promises for hole-free specs). -/
def FaceOnlyResult (r : Except PyErr RunResult) : Prop :=
  ∃ res s g, r = .ok res ∧ res.valid = true ∧ res.errors = [] ∧
    res.gcode = some g ∧ res.plan = [s] ∧
    dictGetD s "operation" .null = .str "face_milling" ∧
    dictGetD s "depth_mm" .null = .num (1/5)

/-- Every drilling step of the plan carries numeric position
coordinates (the hypothesis structural validation fails to enforce). -/
def DrillPositionsNumeric (plan : List Dict) : Prop :=
  ∀ step ∈ plan, (dictGetD step "operation" .null).eqStr "drilling" = true →
    ∃ xs qs, dictGetD step "position" .null = .list xs ∧ numListOf? xs = some qs

/-- No line of the program is the generator's unsupported-operation
comment. -/
def NoUnsupportedLine (lines : List String) : Prop :=
  ∀ v : Val, ("; Unsupported operation: " ++ Val.pyStr v) ∉ lines

/-- A structurally valid face-milling step dict (used by the validator
counterexamples). -/
def face_ok_step : Dict :=
  [("operation", .str "face_milling"), ("depth_mm", .num (1/5))]

/-- A drilling step whose position holds two `None` entries: positive
diameter and depth, a two-element position list, but non-numeric
coordinates. -/
def drill_nullpos_step : Dict :=
  [("operation", .str "drilling"), ("diameter_mm", .num 1),
   ("depth_mm", .num 1), ("position", .list [.null, .null])]

/-- A structurally valid plan whose drilling step has non-numeric
position entries (diameter 2 mm to keep it distinct from
`drill_nullpos_step`). -/
def c4_plan : List Dict :=
  [[("operation", .str "drilling"), ("diameter_mm", .num 2),
    ("depth_mm", .num 1), ("position", .list [.null, .null])]]

/-- The spec's scenario-3 input: an unknown material with one
well-formed 6 mm hole. -/
def unknown_material_spec : Dict :=
  [("material", .str "unknown_material"),
   ("drill_holes", .list [.dict [("diameter_mm", .num 6), ("depth_mm", .num 10),
                                 ("position", .list [.num 0, .num 0])]])]

/-- A spec with one hole whose diameter is non-positive (−1) while its
depth is a positive 2 mm. -/
def clamp_spec : Dict :=
  [("material", .str "aluminum_6061"),
   ("drill_holes", .list [.dict [("diameter_mm", .num (-1)), ("depth_mm", .num 2),
                                 ("position", .list [.num 0, .num 0])]])]

/-- The spec's scenario-2 hole: 6 mm diameter, 10 mm depth, at the
origin. -/
def demo_hole : Val :=
  .dict [("diameter_mm", .num 6), ("depth_mm", .num 10),
         ("position", .list [.num 0, .num 0])]

/-- The record predicate of the candidate scan, as a filterMap kernel: a
dict record of type `"drill"` with a numeric diameter contributes its
`(key, diameter)` pair. -/
def drillCandidate? (p : String × Val) : Option (String × ℚ) :=
  match p.2 with
  | .dict md =>
    (match dictGetD md "diameter_mm" .null with
     | .num q => if (dictGetD md "type" .null).eqStr "drill" then some (p.1, q) else none
     | _ => none)
  | _ => none

/-- The spec's tie-break scenario table: only a 3 mm and a 10 mm drill. -/
def two_drill_db : MachiningDB :=
  { materials := [],
    tools := [("drill_3mm", .dict [("type", .str "drill"), ("diameter_mm", .num 3)]),
              ("drill_10mm", .dict [("type", .str "drill"), ("diameter_mm", .num 10)])],
    operations := [] }

/-- A canonical drilling step dict over three field values, with
`tool`/`rpm`/`feed_rate_mm_per_min` absent (rule-based shape). -/
def drill_step_dict (dia depth pos : Val) : Dict :=
  [("operation", .str "drilling"), ("diameter_mm", dia),
   ("depth_mm", depth), ("position", pos)]

/-- A tool table whose records are all dicts (the shape
`machining_db.json` gives them). -/
def ToolRecordsWF (db : MachiningDB) : Prop :=
  ∀ p ∈ db.tools, ∃ md, p.2 = Val.dict md

/-- The facts a step satisfies when the validator's per-step loop finds
nothing to report. -/
def StepFacts (step : Dict) : Prop :=
  (dictGetD step "operation" .null = .str "face_milling" ∨
    dictGetD step "operation" .null = .str "drilling") ∧
  (dictGetD step "depth_mm" .null = .null ∨
    ∃ q, dictGetD step "depth_mm" .null = .num q ∧ 0 < q) ∧
  (dictGetD step "tool" .null = .null ∨
    ∃ s, dictGetD step "tool" .null = .str s ∧ (stripChars s.data).isEmpty = false) ∧
  (dictGetD step "rpm" .null = .null ∨
    ∃ q, dictGetD step "rpm" .null = .num q ∧ 0 < q) ∧
  (dictGetD step "feed_rate_mm_per_min" .null = .null ∨
    ∃ q, dictGetD step "feed_rate_mm_per_min" .null = .num q ∧ 0 < q) ∧
  (dictGetD step "operation" .null = .str "face_milling" →
    ∃ q, dictGetD step "depth_mm" .null = .num q ∧ 0 < q) ∧
  (dictGetD step "operation" .null = .str "drilling" →
    (∃ q, dictGetD step "diameter_mm" .null = .num q ∧ 0 < q) ∧
    (∃ xs, dictGetD step "position" .null = .list xs ∧ xs.length = 2) ∧
    (∃ q, dictGetD step "depth_mm" .null = .num q ∧ 0 < q))

/-! # Theorems -/

/-- Decomposition of a successful validator return: the flag is the
emptiness of the error list, and the list is the plan-emptiness check,
then the program checks, then the step checks, in that order. -/
theorem validate_ok_shape (plan : List Dict) (g : Option String) (b : Bool)
    (errs : List String) (h : validate plan g = .ok (b, errs)) :
    b = errs.isEmpty ∧ ∃ e3, plan_step_errors 1 plan = .ok e3 ∧
      errs = (if plan.isEmpty then ["Plan is empty"] else []) ++
        gcode_errors_opt g ++ e3 := by
  cases h3 : plan_step_errors 1 plan with
  | error e =>
    rw [validate.eq_def] at h
    simp only [h3, bind, Except.bind] at h
    exact Except.noConfusion h
  | ok e3 =>
    rw [validate.eq_def] at h
    simp only [h3, bind, Except.bind, pure, Except.pure, Except.ok.injEq, Prod.mk.injEq] at h
    obtain ⟨hb, he⟩ := h
    exact ⟨by rw [← hb, ← he], e3, rfl, he.symm⟩

/-- C10: for every (plan, program-text) input on which the validator
returns, the returned flag is true exactly when the returned error list
is empty, so a caller can trust either field alone. -/
theorem validator_flag_agrees_with_errors (plan : List Dict) (g : Option String)
    (b : Bool) (errs : List String) (h : validate plan g = .ok (b, errs)) :
    b = true ↔ errs = [] := by
  obtain ⟨hb, -⟩ := validate_ok_shape plan g b errs h
  subst hb
  simp [List.isEmpty_iff]

/-- Witness for C10 at the empty plan: the validator returns
`(false, ["Plan is empty"])`, and the theorem equates the two fields. -/
theorem validator_flag_agrees_with_errors_witness :
    (false = true ↔ (["Plan is empty"] : List String) = []) :=
  validator_flag_agrees_with_errors [] none false ["Plan is empty"] rfl

/-- C7 counterexample: a DRILLING step whose two position entries are
both `None` (non-numeric) is *not* reported: validation returns
`(True, [])` on it. -/
theorem drilling_null_position_passes_validation :
    validate [drill_nullpos_step] none = .ok (true, []) := by with_unfolding_all rfl

/-- C6 counterexample: a program text lacking both the header marker and
the terminator marker yields only the header error — the `elif` chain
never reports the missing terminator alongside it. -/
theorem missing_terminator_unreported_with_missing_header :
    containsSub "x" "PSEUDO-GCODE" = false ∧ containsSub "x" "M30" = false ∧
    validate [face_ok_step] (some "x") =
      .ok (false, ["G-code missing header (PSEUDO-GCODE marker)"]) :=
  ⟨rfl, rfl, by with_unfolding_all rfl⟩

set_option maxRecDepth 40000 in
/-- C3 counterexample: the spec's scenario-3 input (unknown material,
one well-formed hole, rule-based path) does not abort: the run returns
`valid = True` with a generated program. -/
theorem unknown_material_run_succeeds :
    (run machining_db unknown_material_spec).toOption.map
      (fun r => (r.valid, r.gcode.isSome)) = some (true, true) := by with_unfolding_all rfl

set_option maxRecDepth 40000 in
/-- C3 amended: an unknown material never aborts the rule-based path;
the planner substitutes the hard-coded 1000 rpm / 100 mm/min defaults
into every step, the generator substitutes likewise, and the run ends
with `valid = true`, no errors, and a generated program. -/
theorem unknown_material_substitutes_defaults :
    (run machining_db unknown_material_spec).toOption.map
      (fun r => (r.valid, r.gcode.isSome, r.errors,
        r.plan.map (fun s => (dictGetD s "rpm" .null, dictGetD s "feed_rate_mm_per_min" .null)))) =
    some (true, true, [],
      [(Val.num 1000, Val.num 100), (Val.num 1000, Val.num 100)]) := by with_unfolding_all rfl

set_option maxRecDepth 40000 in
/-- C9 counterexample: for the hole `{diameter −1, depth 2}` the clamp
branch fires and the emitted DRILLING step carries depth 5 mm — the
positive input depth 2 mm is *not* carried unchanged. -/
theorem clamp_rewrites_positive_depth :
    (rule_based_plan_process machining_db clamp_spec).toOption.map
      (fun steps => steps.map fun s => (s.diameter_mm, s.depth_mm)) =
    some [(none, some (1/5)), (some 3, some 5)] := by with_unfolding_all rfl

/-- Helper: Python's `min` under the distance key returns a candidate of
minimal distance, and every candidate strictly before it in list order
has strictly larger distance (the first minimum wins). -/
theorem min_by_dist_spec (d : ℚ) (c : String × ℚ) (cs : List (String × ℚ)) :
    (∀ e ∈ c :: cs, |(min_by_dist d c cs).2 - d| ≤ |e.2 - d|) ∧
    ∃ l1 l2, c :: cs = l1 ++ min_by_dist d c cs :: l2 ∧
      ∀ e ∈ l1, |(min_by_dist d c cs).2 - d| < |e.2 - d| := by
  induction cs generalizing c with
  | nil =>
    constructor
    · intro e he
      simp only [List.mem_singleton] at he
      simp [min_by_dist, he]
    · exact ⟨[], [], rfl, by simp⟩
  | cons kv cs ih =>
    have hfold : min_by_dist d c (kv :: cs) =
        min_by_dist d (if |kv.2 - d| < |c.2 - d| then kv else c) cs := rfl
    by_cases hlt : |kv.2 - d| < |c.2 - d|
    · rw [if_pos hlt] at hfold
      rw [hfold]
      obtain ⟨hmin, l1, l2, hdec, hfirst⟩ := ih kv
      refine ⟨?_, ?_⟩
      · intro e he
        rcases List.mem_cons.mp he with rfl | he'
        · exact le_trans (hmin kv (by simp)) (le_of_lt hlt)
        · exact hmin e he'
      · refine ⟨c :: l1, l2, ?_, ?_⟩
        · rw [List.cons_append, ← hdec]
        · intro e he
          rcases List.mem_cons.mp he with rfl | he'
          · exact lt_of_le_of_lt (hmin kv (by simp)) hlt
          · exact hfirst e he'
    · rw [if_neg hlt] at hfold
      rw [hfold]
      have hle : |c.2 - d| ≤ |kv.2 - d| := le_of_not_lt hlt
      obtain ⟨hmin, l1, l2, hdec, hfirst⟩ := ih c
      refine ⟨?_, ?_⟩
      · intro e he
        rcases List.mem_cons.mp he with heq | he'
        · subst heq
          exact hmin e (by simp)
        · rcases List.mem_cons.mp he' with heq | he''
          · subst heq
            exact le_trans (hmin c (by simp)) hle
          · exact hmin e (by simp [he''])
      · cases l1 with
        | nil =>
          have hres : min_by_dist d c cs = c := by
            have h0 := congrArg List.head? hdec
            simpa using h0.symm
          exact ⟨[], kv :: cs, by rw [hres, List.nil_append], by simp⟩
        | cons a t =>
          have ha : a = c := by
            have h0 := congrArg List.head? hdec
            simpa using h0.symm
          subst ha
          have ht : cs = t ++ min_by_dist d a cs :: l2 := by
            have h0 := congrArg List.tail hdec
            simpa using h0
          refine ⟨a :: kv :: t, l2, ?_, ?_⟩
          · conv_lhs => rw [ht]
            simp
          · intro e he
            have hstrict : |(min_by_dist d a cs).2 - d| < |a.2 - d| := hfirst a (by simp)
            rcases List.mem_cons.mp he with heq | he'
            · subst heq
              exact hstrict
            · rcases List.mem_cons.mp he' with heq | he''
              · subst heq
                exact lt_of_lt_of_le hstrict hle
              · exact hfirst e (by simp [he''])

/-- Helper: every candidate key the scan produced is bound in the tool
table. -/
theorem drill_candidates_keys (tools : Dict) (cands : List (String × ℚ))
    (h : drill_candidates tools = .ok cands) :
    ∀ kv ∈ cands, (dictFind? tools kv.1).isSome := by
  induction tools generalizing cands with
  | nil =>
    rw [drill_candidates] at h
    cases h
    intro kv hkv
    cases hkv
  | cons p rest ih =>
    rw [drill_candidates] at h
    cases hm : p.2 with
    | dict md =>
      rw [hm] at h
      simp only [Val.get, bind, Except.bind] at h
      cases htail : drill_candidates rest with
      | error e =>
        rw [htail] at h
        exact Except.noConfusion h
      | ok tail =>
        rw [htail] at h
        have hrec := ih tail htail
        intro kv hkv
        by_cases hk : p.1 = kv.1
        · simp [dictFind?, List.find?, hk]
        · have hkv_tail : kv ∈ tail := by
            cases hd : dictGetD md "diameter_mm" .null <;> rw [hd] at h
            case num q =>
              by_cases ht : (dictGetD md "type" .null).eqStr "drill"
              · simp only [ht, if_true, pure, Except.pure, Except.ok.injEq] at h
                rw [← h] at hkv
                rcases List.mem_cons.mp hkv with heq | h'
                · exact absurd (congrArg Prod.fst heq).symm hk
                · exact h'
              · simp only [ht, Bool.false_eq_true, if_false, pure, Except.pure,
                  Except.ok.injEq] at h
                rw [← h] at hkv
                exact hkv
            all_goals
              simp only [pure, Except.pure, Except.ok.injEq] at h
              rw [← h] at hkv
              exact hkv
          have hstep : dictFind? (p :: rest) kv.1 = dictFind? rest kv.1 := by
            unfold dictFind?
            rw [List.find?_cons_of_neg _ (by simp [hk])]
          rw [hstep]
          exact hrec kv hkv_tail
    | num q =>
      rw [hm] at h
      simp only [Val.get, bind, Except.bind] at h
      exact Except.noConfusion h
    | str s =>
      rw [hm] at h
      simp only [Val.get, bind, Except.bind] at h
      exact Except.noConfusion h
    | list xs =>
      rw [hm] at h
      simp only [Val.get, bind, Except.bind] at h
      exact Except.noConfusion h
    | null =>
      rw [hm] at h
      simp only [Val.get, bind, Except.bind] at h
      exact Except.noConfusion h

/-- Helper: over a table of dict records the candidate scan is exactly
the in-order filter of drill-typed records with numeric diameters. -/
theorem drill_candidates_filterMap (tools : Dict)
    (h : ∀ p ∈ tools, ∃ md, p.2 = Val.dict md) :
    drill_candidates tools = .ok (tools.filterMap drillCandidate?) := by
  induction tools with
  | nil => rfl
  | cons p rest ih =>
    obtain ⟨md, hmd⟩ := h p (by simp)
    have hrest := ih (fun q hq => h q (by simp [hq]))
    rw [drill_candidates, hmd]
    simp only [Val.get, bind, Except.bind, hrest]
    cases hd : dictGetD md "diameter_mm" .null
    case num q =>
      by_cases ht : (dictGetD md "type" .null).eqStr "drill"
      · simp [List.filterMap_cons, drillCandidate?, hmd, hd, ht, pure, Except.pure]
      · simp [List.filterMap_cons, drillCandidate?, hmd, hd, ht, pure, Except.pure]
    all_goals simp [List.filterMap_cons, drillCandidate?, hmd, hd, pure, Except.pure]

/-- C5: drill-tool resolution first tries the exact `drill_{int(d)}mm`
key; on a miss it scans exactly the drill-typed records with numeric
diameters in table order and returns the first one of minimal
`|diameter − d|` (every candidate strictly earlier has strictly larger
distance); it raises the no-drill-tools `ValueError` when the scan is
empty; and on the spec's two-drill table, diameter 7 resolves to
`drill_10mm`. -/
theorem pick_tool_resolution (db : MachiningDB) (d : ℚ) :
    (∀ r, dictFind? db.tools ("drill_" ++ toString (pyTrunc d) ++ "mm") = some r →
        pick_tool_for_drilling db d =
          .ok ("drill_" ++ toString (pyTrunc d) ++ "mm", r)) ∧
    ((∀ p ∈ db.tools, ∃ md, p.2 = Val.dict md) →
        drill_candidates db.tools = .ok (db.tools.filterMap drillCandidate?)) ∧
    (∀ c cs, dictFind? db.tools ("drill_" ++ toString (pyTrunc d) ++ "mm") = none →
        drill_candidates db.tools = .ok (c :: cs) →
        ∃ res r, pick_tool_for_drilling db d = .ok (res.1, r) ∧
          dictFind? db.tools res.1 = some r ∧
          (∀ e ∈ c :: cs, |res.2 - d| ≤ |e.2 - d|) ∧
          (∃ l1 l2, c :: cs = l1 ++ res :: l2 ∧ ∀ e ∈ l1, |res.2 - d| < |e.2 - d|)) ∧
    (dictFind? db.tools ("drill_" ++ toString (pyTrunc d) ++ "mm") = none →
        drill_candidates db.tools = .ok [] →
        pick_tool_for_drilling db d =
          .error (.valueError "No drill tools available in DB")) ∧
    pick_tool_for_drilling two_drill_db 7 =
      .ok ("drill_10mm", .dict [("type", .str "drill"), ("diameter_mm", .num 10)]) := by
  refine ⟨?_, drill_candidates_filterMap db.tools, ?_, ?_, ?_⟩
  · intro r hr
    rw [pick_tool_for_drilling]
    simp only [hr]
  · intro c cs hnone hcands
    obtain ⟨hmin, l1, l2, hdec, hfirst⟩ := min_by_dist_spec d c cs
    have hmem : min_by_dist d c cs ∈ c :: cs := by
      rw [hdec]
      exact List.mem_append_right l1 (List.mem_cons_self _ _)
    obtain ⟨r, hr⟩ := Option.isSome_iff_exists.mp
      (drill_candidates_keys db.tools (c :: cs) hcands (min_by_dist d c cs) hmem)
    refine ⟨min_by_dist d c cs, r, ?_, hr, hmin, l1, l2, hdec, hfirst⟩
    rw [pick_tool_for_drilling]
    simp only [hnone, hcands, bind, Except.bind, hr]
  · intro hnone hcands
    rw [pick_tool_for_drilling]
    simp only [hnone, hcands, bind, Except.bind]
  · with_unfolding_all rfl

/-- Witness for C5: the nearest-match branch applied to the spec's
two-drill table at diameter 7: the exact key misses, the scan returns
both drills, and the resolved record is minimal and first-minimal. -/
theorem pick_tool_resolution_witness :
    ∃ res r, pick_tool_for_drilling two_drill_db 7 = .ok (res.1, r) ∧
      dictFind? two_drill_db.tools res.1 = some r ∧
      (∀ e ∈ [(("drill_3mm" : String), (3 : ℚ)), ("drill_10mm", 10)], |res.2 - 7| ≤ |e.2 - 7|) ∧
      (∃ l1 l2, [(("drill_3mm" : String), (3 : ℚ)), ("drill_10mm", 10)] = l1 ++ res :: l2 ∧
        ∀ e ∈ l1, |res.2 - 7| < |e.2 - 7|) :=
  (pick_tool_resolution two_drill_db 7).2.2.1 ("drill_3mm", 3) [("drill_10mm", 10)]
    (by with_unfolding_all rfl) (by with_unfolding_all rfl)

/-- C7 amended: a DRILLING step (with `tool`/`rpm`/`feed` absent) passes
the per-step checks exactly when its diameter is a positive number, its
depth is a positive number, and its position is a list of exactly two
entries — the entries themselves are never type-checked, so two `None`
coordinates pass. -/
theorem drilling_validation_characterization (dia depth pos : Val) :
    step_errors 1 (drill_step_dict dia depth pos) = .ok [] ↔
      ((∃ q, dia = Val.num q ∧ 0 < q) ∧ (∃ q, depth = Val.num q ∧ 0 < q) ∧
       (∃ xs, pos = Val.list xs ∧ xs.length = 2)) := by
  cases dia <;> cases depth <;> cases pos <;>
    simp [step_errors, drill_step_dict, op_check, depth_check, tool_check, rpm_check,
      feed_check, face_check, drill_check, dictGetD, dictFind?, List.find?, Val.eqStr,
      bind, Except.bind, pure, Except.pure, not_le] <;>
  tauto

/-- C6 amended: the step loop collects every step's violations without
short-circuiting — the errors of a concatenated plan are the errors of
the two parts in order, with step numbers shifted — and step errors come
after the plan-emptiness and program checks; but the program-text checks
are an `elif` chain: they contribute at most one message, and a text
missing both markers is reported only for the missing header. -/
theorem validator_error_collection_order :
    (∀ (n : ℕ) (p₁ p₂ : List Dict), plan_step_errors n (p₁ ++ p₂) =
        do
          let e₁ ← plan_step_errors n p₁
          let e₂ ← plan_step_errors (n + p₁.length) p₂
          pure (e₁ ++ e₂)) ∧
    (∀ g : String, (gcode_errors g).length ≤ 1) ∧
    (∀ g : String, g ≠ "" → containsSub g "PSEUDO-GCODE" = false →
        gcode_errors g = ["G-code missing header (PSEUDO-GCODE marker)"]) ∧
    (∀ (plan : List Dict) (g : String) (b : Bool) (errs : List String),
        validate plan (some g) = .ok (b, errs) →
        ∃ es, plan_step_errors 1 plan = .ok es ∧
          errs = (if plan.isEmpty then ["Plan is empty"] else []) ++
            gcode_errors g ++ es) := by
  refine ⟨?_, ?_, ?_, ?_⟩
  · intro n p₁ p₂
    induction p₁ generalizing n with
    | nil =>
      cases h : plan_step_errors n p₂ <;>
        simp [plan_step_errors, bind, Except.bind, pure, Except.pure, h]
    | cons s rest ih =>
      simp only [List.cons_append, plan_step_errors, bind, Except.bind, List.append_eq]
      cases hs : step_errors n s with
      | error e => rfl
      | ok e =>
        have hlen : n + 1 + rest.length = n + (rest.length + 1) := by omega
        rw [ih (n + 1), hlen]
        cases h1 : plan_step_errors (n + 1) rest with
        | error e' => rfl
        | ok e1 =>
          cases h2 : plan_step_errors (n + (rest.length + 1)) p₂ <;>
            simp [h2, bind, Except.bind, pure, Except.pure, List.append_assoc]
  · intro g
    rw [gcode_errors]
    split
    · simp
    · split
      · simp
      · split <;> simp
  · intro g hne hhdr
    rw [gcode_errors, if_neg hne, if_pos (by rw [hhdr]; rfl)]
  · intro plan g b errs h
    obtain ⟨-, es, hes, herrs⟩ := validate_ok_shape plan (some g) b errs h
    exact ⟨es, hes, herrs⟩

/-- Witness for C6: the theorem applied at the non-empty marker-free
text `"x"`, for which only the header message is produced. -/
theorem validator_error_collection_order_witness :
    gcode_errors "x" = ["G-code missing header (PSEUDO-GCODE marker)"] :=
  validator_error_collection_order.2.2.1 "x" (by decide) rfl

/-- Helper: a drilling `PlanStep(...)` construction with positive
numeric fields and a two-coordinate numeric position succeeds. -/
theorem mkPlanStep_drilling (dv depv : ℚ) (pvs : List Val) (pq : List ℚ) (t : String)
    (R F : ℚ) (hdv : 0 < dv) (hdepv : 0 < depv) (hpvs : numListOf? pvs = some pq)
    (hplen : pq.length = 2) (hR : 0 < R) (hRden : R.den = 1) (hF : 0 < F) :
    mkPlanStep "drilling" (some (.num depv)) (some (.num dv)) (some (.list pvs))
      (some (.str t)) (some (.num R)) (some (.num F)) none =
      .ok ⟨"drilling", some depv, some dv, some pq, some t, some R, some F, none⟩ := by
  simp [mkPlanStep, hdv, hdepv, hpvs, hplen, hR, hRden, hF, bind, Except.bind,
    pure, Except.pure]

/-- Helper: the face-milling `PlanStep(...)` construction of the
rule-based planner succeeds for a positive integral rpm, positive feed
and notes within the 500-character cap. -/
theorem mkPlanStep_face (t notes : String) (R F : ℚ) (hR : 0 < R) (hRden : R.den = 1)
    (hF : 0 < F) (hnlen : notes.length ≤ 500) :
    mkPlanStep "face_milling" (some (.num (2/10))) none none (some (.str t))
      (some (.num R)) (some (.num F)) (some (.str notes)) =
      .ok ⟨"face_milling", some (2/10), none, none, some t, some R, some F, some notes⟩ := by
  have h02 : (0 : ℚ) < 2/10 := by norm_num
  simp [mkPlanStep, h02, hR, hRden, hF, hnlen, bind, Except.bind, pure, Except.pure]

/-- Helper: the planner's tool selection always resolves some key for a
numeric diameter once the candidate scan succeeds. -/
theorem rule_pick_tool_ok (db : MachiningDB) (cands : List (String × ℚ))
    (hcands : drill_candidates db.tools = .ok cands) (dq : ℚ) :
    ∃ t : String, rule_pick_tool db (.num dq) = .ok t := by
  rw [rule_pick_tool]
  simp only [pyIntOf, bind, Except.bind, pure, Except.pure]
  cases hfind : dictFind? db.tools ("drill_" ++ toString (pyTrunc dq) ++ "mm") with
  | some r => exact ⟨_, rfl⟩
  | none =>
    simp only [hcands]
    cases cands with
    | nil => exact ⟨"drill_3mm", rfl⟩
    | cons c cs => exact ⟨_, rfl⟩

set_option maxHeartbeats 1000000 in
/-- Helper: on a hole dict with numeric diameter/depth and a
two-coordinate numeric position, the hole loop body emits a drilling
step with the source's clamp semantics (`max`-lifting *both* fields as
soon as either is non-positive) and some resolved tool key. -/
theorem hole_step_spec (db : MachiningDB) (R F : ℚ) (hR : 0 < R) (hRden : R.den = 1)
    (hF : 0 < F) (cands : List (String × ℚ)) (hcands : drill_candidates db.tools = .ok cands)
    (q d : ℚ) (pvs : List Val) (pq : List ℚ) (hpvs : numListOf? pvs = some pq)
    (hplen : pq.length = 2) (hd : Dict)
    (hdia : dictGetD hd "diameter_mm" (.num 3) = .num q)
    (hdep : dictGetD hd "depth_mm" (.num 5) = .num d)
    (hpos : dictGetD hd "position" (.list [.num 0, .num 0]) = .list pvs) :
    ∃ t : String, hole_step db (.num R) (.num F) (.dict hd) =
      .ok ⟨"drilling", some (if q ≤ 0 ∨ d ≤ 0 then max d 5 else d),
           some (if q ≤ 0 ∨ d ≤ 0 then max q 3 else q),
           some pq, some t, some R, some F, none⟩ := by
  obtain ⟨t, ht⟩ := rule_pick_tool_ok db cands hcands
    (if q ≤ 0 ∨ d ≤ 0 then max q 3 else q)
  refine ⟨t, ?_⟩
  rw [hole_step]
  simp only [Val.get, hdia, hdep, hpos, bind, Except.bind, pure, Except.pure, pyLe]
  have hq3 : (0:ℚ) < max q 3 := lt_of_lt_of_le (by norm_num) (le_max_right q 3)
  have hd5 : (0:ℚ) < max d 5 := lt_of_lt_of_le (by norm_num) (le_max_right d 5)
  by_cases hq : q ≤ 0
  · simp only [hq, true_or, ite_true] at ht
    simp [hq, pyMax, pyLe, bind, Except.bind, pure, Except.pure, ht]
    exact mkPlanStep_drilling _ _ _ _ _ _ _ hq3 hd5 hpvs hplen hR hRden hF
  · by_cases hdle : d ≤ 0
    · simp only [hq, hdle, false_or, or_true, ite_true] at ht
      simp [hq, hdle, pyMax, pyLe, bind, Except.bind, pure, Except.pure, ht]
      exact mkPlanStep_drilling _ _ _ _ _ _ _ hq3 hd5 hpvs hplen hR hRden hF
    · simp only [hq, hdle, or_self, false_or, ite_false] at ht
      simp [hq, hdle, pyMax, pyLe, bind, Except.bind, pure, Except.pure, ht]
      exact mkPlanStep_drilling _ _ _ _ _ _ _
        (not_le.mp hq) (not_le.mp hdle) hpvs hplen hR hRden hF

/-- C9 amended: in the rule-based path, a hole with numeric fields is
carried unchanged only when *both* diameter and depth are positive; as
soon as either is non-positive the clamp branch rewrites *both* via
`max` (diameter to at least 3 mm, depth to at least 5 mm), so a positive
value below its minimum is also lifted when the other field is
non-positive. -/
theorem clamp_behavior_characterization (q d x y : ℚ) :
    ∃ t : String, rule_based_plan_process machining_db
        [("material", .str "aluminum_6061"),
         ("drill_holes", .list [.dict [("diameter_mm", .num q), ("depth_mm", .num d),
                                       ("position", .list [.num x, .num y])]])] =
      .ok [⟨"face_milling", some (2/10), none, none, some "endmill_6mm", some 12000,
            some 800, some ("Face top surface for " ++ Val.pyStr (.str "aluminum_6061"))⟩,
           ⟨"drilling", some (if q ≤ 0 ∨ d ≤ 0 then max d 5 else d),
            some (if q ≤ 0 ∨ d ≤ 0 then max q 3 else q),
            some [x, y], some t, some 12000, some 800, none⟩] := by
  obtain ⟨t, ht⟩ := hole_step_spec machining_db 12000 800 (by norm_num)
    (by with_unfolding_all rfl) (by norm_num)
    [("drill_3mm", 3), ("drill_6mm", 6), ("drill_10mm", 10)] rfl
    q d [.num x, .num y] [x, y] rfl rfl
    [("diameter_mm", .num q), ("depth_mm", .num d), ("position", .list [.num x, .num y])]
    rfl rfl rfl
  refine ⟨t, ?_⟩
  have hbridge : rule_based_plan_process machining_db
      [("material", .str "aluminum_6061"),
       ("drill_holes", .list [.dict [("diameter_mm", .num q), ("depth_mm", .num d),
                                     ("position", .list [.num x, .num y])]])] =
      (do
        let first ← mkPlanStep "face_milling" (some (.num (2/10))) none none
          (some (.str "endmill_6mm")) (some (.num 12000)) (some (.num 800))
          (some (.str ("Face top surface for " ++ Val.pyStr (.str "aluminum_6061"))))
        let drills ← List.mapM (hole_step machining_db (.num 12000) (.num 800))
          [Val.dict [("diameter_mm", .num q), ("depth_mm", .num d),
                     ("position", .list [.num x, .num y])]]
        pure (first :: drills)) := by
    with_unfolding_all rfl
  rw [hbridge]
  rw [mkPlanStep_face "endmill_6mm" ("Face top surface for " ++ Val.pyStr (.str "aluminum_6061"))
    12000 800 (by norm_num) (by with_unfolding_all rfl) (by norm_num)
    (by simp only [Val.pyStr]; decide)]
  simp only [List.mapM_cons, List.mapM_nil, bind, Except.bind, pure, Except.pure, ht]

/-- Helper: `holes or []` iterates the original hole list. -/
theorem pyIterate_pyOr (xs : List Val) :
    pyIterate (pyOr (.list xs) (.list [])) = .ok xs := by
  cases xs <;> rfl

/-- Helper: the hole loop over well-formed holes yields one drilling
step per hole, in order, carrying each hole's diameter, depth and
position unchanged. -/
theorem hole_steps_mapM (db : MachiningDB) (R F : ℚ) (hR : 0 < R) (hRden : R.den = 1)
    (hF : 0 < F) (cands : List (String × ℚ))
    (hcands : drill_candidates db.tools = .ok cands) :
    ∀ holes : List Val, (∀ h ∈ holes, WFHole h) →
    ∃ rest, List.mapM (hole_step db (.num R) (.num F)) holes = .ok rest ∧
      List.Forall₂ (fun st h => PlanStep.operation st = "drilling" ∧
        st.diameter_mm = some (holeDia h) ∧ st.depth_mm = some (holeDepth h) ∧
        st.position = some (holePos h)) rest holes := by
  intro holes
  induction holes with
  | nil => exact fun _ => ⟨[], rfl, .nil⟩
  | cons h hs ih =>
    intro hwf
    obtain ⟨hd, q, d, pvs, pq, hh, hdia, hq, hdep, hdpos, hpos, hpq, hplen⟩ :=
      hwf h (by simp)
    obtain ⟨rest, hrest, hall⟩ := ih (fun h' hh' => hwf h' (by simp [hh']))
    obtain ⟨t, ht⟩ := hole_step_spec db R F hR hRden hF cands hcands q d pvs pq hpq
      hplen hd hdia hdep hpos
    have hnoclamp : ¬(q ≤ 0 ∨ d ≤ 0) := by
      push_neg
      exact ⟨hq, hdpos⟩
    rw [if_neg hnoclamp, if_neg hnoclamp] at ht
    refine ⟨⟨"drilling", some d, some q, some pq, some t, some R, some F, none⟩ :: rest, ?_, ?_⟩
    · rw [hh]
      simp only [List.mapM_cons, bind, Except.bind, ht, hrest, pure, Except.pure]
    · refine List.Forall₂.cons ⟨rfl, ?_, ?_, ?_⟩ hall
      · rw [hh]
        simp [holeDia, hdia]
      · rw [hh]
        simp [holeDepth, hdep]
      · rw [hh]
        simp [holePos, hpos, hpq]

/-- C8: for every knowledge base with well-formed material and
operations tables and a successful candidate scan, every material name
(as `PartSpec` bounds it) and every list of well-formed holes, the
rule-based path produces exactly `N + 1` steps: one face-milling step
first, then one drilling step per input hole in input order, each
carrying its hole's parameters. -/
theorem rule_based_plan_shape (db : MachiningDB) (m : String) (holes : List Val)
    (hm : m.length ≤ 100) (hmat : MaterialsWF db) (hops : OpsWF db)
    (cands : List (String × ℚ)) (hcands : drill_candidates db.tools = .ok cands)
    (hholes : ∀ h ∈ holes, WFHole h) :
    ∃ steps, rule_based_plan_process db
        [("material", .str m), ("drill_holes", .list holes)] = .ok steps ∧
      steps.length = holes.length + 1 ∧
      ∃ s₀ rest, steps = s₀ :: rest ∧ PlanStep.operation s₀ = "face_milling" ∧
        List.Forall₂ (fun st h => PlanStep.operation st = "drilling" ∧
          st.diameter_mm = some (holeDia h) ∧ st.depth_mm = some (holeDepth h) ∧
          st.position = some (holePos h)) rest holes := by
  obtain ⟨R, F, hRv, hR, hRden, hFv, hF⟩ : ∃ R F,
      (dictGetD db.materials m (.dict [])).get "recommended_rpm" (.num 1000) =
        .ok (.num R) ∧ 0 < R ∧ R.den = 1 ∧
      (dictGetD db.materials m (.dict [])).get "recommended_feed_mm_per_min" (.num 100) =
        .ok (.num F) ∧ 0 < F := by
    cases hfind : dictFind? db.materials m with
    | none =>
      have hmd : dictGetD db.materials m (.dict []) = .dict [] := by
        rw [dictGetD, hfind]
        rfl
      refine ⟨1000, 100, ?_, by norm_num, by with_unfolding_all rfl, ?_, by norm_num⟩ <;>
        (simp only [hmd, Val.get]; simp [dictGetD, dictFind?, List.find?])
    | some v =>
      obtain ⟨md, R, F, hv, h1, h2, h3, h4, h5⟩ := hmat m v hfind
      have hmd : dictGetD db.materials m (.dict []) = .dict md := by
        rw [dictGetD, hfind]
        exact hv
      refine ⟨R, F, ?_, h2, h3, ?_, h5⟩ <;>
        (simp only [hmd, Val.get]; first
          | rw [h1]
          | rw [h4])
  obtain ⟨fm, tl, hfm, htl, htlstrip, htlne⟩ := hops
  have hnotes : ("Face top surface for " ++ Val.pyStr (.str m)).length ≤ 500 := by
    simp only [Val.pyStr, String.length_append]
    have : ("Face top surface for " : String).length = 21 := by decide
    omega
  have hface := mkPlanStep_face tl ("Face top surface for " ++ Val.pyStr (.str m))
    R F hR hRden hF hnotes
  obtain ⟨rest, hrest, hall⟩ :=
    hole_steps_mapM db R F hR hRden hF cands hcands holes hholes
  refine ⟨⟨"face_milling", some (2/10), none, none, some tl, some R, some F,
    some ("Face top surface for " ++ Val.pyStr (.str m))⟩ :: rest, ?_, ?_, _, rest,
    rfl, rfl, hall⟩
  · rw [rule_based_plan_process]
    have hspec_mat : dictGetD [("material", Val.str m), ("drill_holes", Val.list holes)]
        "material" (.str "aluminum_6061") = .str m := rfl
    have hspec_holes : dictGetD [("material", Val.str m), ("drill_holes", Val.list holes)]
        "drill_holes" .null = .list holes := rfl
    simp only [hspec_mat, hspec_holes, bind, Except.bind, pure, Except.pure]
    simp only [hRv, hFv]
    simp only [hfm, Val.get, htl]
    simp only [hface, pyIterate_pyOr, hrest]
  · simp [List.Forall₂.length_eq hall]

/-- Helper: the modelled knowledge base has a well-formed materials
table. -/
theorem machining_db_materials_wf : MaterialsWF machining_db := by
  intro s v hfind
  simp only [dictFind?, machining_db, List.find?] at hfind
  by_cases h1 : (("aluminum_6061" : String) == s) = true
  · simp only [h1, Option.map_some] at hfind
    cases hfind
    exact ⟨_, 12000, 800, rfl, rfl, by norm_num, by with_unfolding_all rfl, rfl,
      by norm_num⟩
  · simp only [h1] at hfind
    by_cases h2 : (("steel_1018" : String) == s) = true
    · simp only [h2, Option.map_some] at hfind
      cases hfind
      exact ⟨_, 6000, 300, rfl, rfl, by norm_num, by with_unfolding_all rfl, rfl,
        by norm_num⟩
    · simp only [h2] at hfind
      cases hfind

/-- Helper: the modelled knowledge base has a well-formed operations
table. -/
theorem machining_db_ops_wf : OpsWF machining_db :=
  ⟨[("default_tool", .str "endmill_6mm")], "endmill_6mm", rfl, rfl, by decide, by decide⟩

/-- Helper: the spec's 6 mm hole is well-formed. -/
theorem demo_hole_wf : WFHole demo_hole :=
  ⟨[("diameter_mm", .num 6), ("depth_mm", .num 10), ("position", .list [.num 0, .num 0])],
   6, 10, [.num 0, .num 0], [0, 0], rfl, rfl, by norm_num, rfl, by norm_num, rfl, rfl, rfl⟩

/-- Witness for C8: the shape theorem applied to the modelled knowledge
base, the aluminum material, and one well-formed 6 mm hole. -/
theorem rule_based_plan_shape_witness :
    ∃ steps, rule_based_plan_process machining_db
        [("material", .str "aluminum_6061"), ("drill_holes", .list [demo_hole])] =
          .ok steps ∧
      steps.length = [demo_hole].length + 1 ∧
      ∃ s₀ rest, steps = s₀ :: rest ∧ PlanStep.operation s₀ = "face_milling" ∧
        List.Forall₂ (fun st h => PlanStep.operation st = "drilling" ∧
          st.diameter_mm = some (holeDia h) ∧ st.depth_mm = some (holeDepth h) ∧
          st.position = some (holePos h)) rest [demo_hole] :=
  rule_based_plan_shape machining_db "aluminum_6061" [demo_hole] (by decide)
    machining_db_materials_wf machining_db_ops_wf
    [("drill_3mm", 3), ("drill_6mm", 6), ("drill_10mm", 10)] rfl
    (by
      intro h hh
      simp only [List.mem_singleton] at hh
      subst hh
      exact demo_hole_wf)

/-- Helper: a list starts with itself followed by anything. -/
theorem startsWithL_self_append : ∀ p r : List Char, startsWithL p (p ++ r) = true := by
  intro p
  induction p with
  | nil => intro r; rfl
  | cons c cs ih => intro r; simp [startsWithL, ih]

/-- Helper: a pattern occurring between two context lists is an infix. -/
theorem infixL_of_decomp (p : List Char) :
    ∀ (x : List Char) (y s : List Char), s = x ++ p ++ y → infixL p s = true := by
  intro x
  induction x with
  | nil =>
    intro y s hs
    simp only [List.nil_append] at hs
    subst hs
    cases hp : p with
    | nil =>
      subst hp
      cases y <;> simp [infixL, startsWithL]
    | cons c cs =>
      subst hp
      rw [List.cons_append, infixL]
      exact Bool.or_eq_true_iff.mpr (Or.inl (startsWithL_self_append (c :: cs) y))
  | cons c cs ih =>
    intro y s hs
    simp only [List.cons_append] at hs
    subst hs
    have hrest := ih y (cs ++ p ++ y) rfl
    rw [infixL]
    exact Bool.or_eq_true_iff.mpr (Or.inr (by simpa [List.append_assoc] using hrest))

/-- Helper: the joined program contains each line's characters as a
contiguous run. -/
theorem joinLines_data_decomp : ∀ (ls : List String) (l : String), l ∈ ls →
    ∃ x y, (joinLines ls).data = x ++ l.data ++ y := by
  intro ls
  induction ls with
  | nil => intro l hl; cases hl
  | cons l' ls ih =>
    intro l hl
    cases ls with
    | nil =>
      simp only [List.mem_singleton] at hl
      subst hl
      exact ⟨[], [], by simp [joinLines]⟩
    | cons l'' ls' =>
      rcases List.mem_cons.mp hl with heq | hmem
      · subst heq
        refine ⟨[], ("\n".data ++ (joinLines (l'' :: ls')).data), ?_⟩
        simp [joinLines, String.data_append]
      · obtain ⟨x, y, hxy⟩ := ih l hmem
        refine ⟨l'.data ++ "\n".data ++ x, y, ?_⟩
        simp [joinLines, String.data_append, hxy, List.append_assoc]

/-- Helper: a marker sitting inside some line of the program occurs in
the joined program text. -/
theorem containsSub_join_of_line (ls : List String) (l pat : String) (hl : l ∈ ls)
    (hdecomp : ∃ u w, l.data = u ++ pat.data ++ w) :
    containsSub (joinLines ls) pat = true := by
  obtain ⟨x, y, hxy⟩ := joinLines_data_decomp ls l hl
  obtain ⟨u, w, huw⟩ := hdecomp
  rw [containsSub]
  refine infixL_of_decomp pat.data (x ++ u) (w ++ y) _ ?_
  rw [hxy, huw]
  simp [List.append_assoc]

/-- Helper: a program whose lines include the header comment and the
`M30` terminator passes all three program-text checks. -/
theorem gcode_errors_nil_of_markers (lines : List String)
    (hh : "; PSEUDO-GCODE GENERATED" ∈ lines) (hm : "M30" ∈ lines) :
    gcode_errors (joinLines lines) = [] := by
  have hhdr : containsSub (joinLines lines) "PSEUDO-GCODE" = true :=
    containsSub_join_of_line lines _ _ hh ⟨"; ".data, " GENERATED".data, by decide⟩
  have hm30 : containsSub (joinLines lines) "M30" = true :=
    containsSub_join_of_line lines _ _ hm ⟨[], [], by decide⟩
  have hne : joinLines lines ≠ "" := by
    intro h0
    rw [h0] at hhdr
    exact absurd hhdr (by decide)
  rw [gcode_errors, if_neg hne, if_neg (by simp [hhdr]), if_neg (by simp [hm30])]

/-- Helper: strings differing at their third character differ. -/
theorem ne_of_third {s t : String} (h : s.data[2]? ≠ t.data[2]?) : s ≠ t :=
  fun he => h (by rw [he])

/-- Helper: appending on the right does not change the third character
of a string at least three characters long. -/
theorem third_append (s b : String) (h : 2 < s.data.length) :
    ((s ++ b).data[2]? = s.data[2]?) ∧ 2 < (s ++ b).data.length := by
  rw [String.data_append]
  constructor
  · exact List.getElem?_append_left h
  · rw [List.length_append]
    omega

/-- Helper: the unsupported-operation comment has `U` as its third
character. -/
theorem third_unsupported (v : Val) :
    ("; Unsupported operation: " ++ Val.pyStr v).data[2]? = some 'U' := by
  rw [(third_append "; Unsupported operation: " (Val.pyStr v) (by decide)).1]
  decide

/-- Helper: a silent generic depth check means absent or positive. -/
theorem depth_check_nil {n : ℕ} {depth : Val} (h : depth_check n depth = []) :
    depth = .null ∨ ∃ q, depth = .num q ∧ 0 < q := by
  cases depth with
  | null => exact Or.inl rfl
  | num q =>
    refine Or.inr ⟨q, rfl, ?_⟩
    by_cases hq : q ≤ 0
    · rw [depth_check, if_pos hq] at h
      cases h
    · exact not_le.mp hq
  | str s => cases h
  | list xs => cases h
  | dict kvs => cases h

/-- Helper: a silent tool check means absent or a non-blank string. -/
theorem tool_check_nil {n : ℕ} {tool : Val} (h : tool_check n tool = []) :
    tool = .null ∨ ∃ s, tool = .str s ∧ (stripChars s.data).isEmpty = false := by
  cases tool with
  | null => exact Or.inl rfl
  | str s =>
    refine Or.inr ⟨s, rfl, ?_⟩
    by_cases hs : (stripChars s.data).isEmpty
    · rw [tool_check, if_pos hs] at h
      cases h
    · exact Bool.eq_false_iff.mpr hs
  | num q => cases h
  | list xs => cases h
  | dict kvs => cases h

/-- Helper: a silent rpm check means absent or positive. -/
theorem rpm_check_nil {n : ℕ} {rpm : Val} (h : rpm_check n rpm = []) :
    rpm = .null ∨ ∃ q, rpm = .num q ∧ 0 < q := by
  cases rpm with
  | null => exact Or.inl rfl
  | num q =>
    refine Or.inr ⟨q, rfl, ?_⟩
    by_cases hq : q ≤ 0
    · rw [rpm_check, if_pos hq] at h
      cases h
    · exact not_le.mp hq
  | str s => cases h
  | list xs => cases h
  | dict kvs => cases h

/-- Helper: a silent feed-rate check means absent or positive. -/
theorem feed_check_nil {n : ℕ} {feed : Val} (h : feed_check n feed = []) :
    feed = .null ∨ ∃ q, feed = .num q ∧ 0 < q := by
  cases feed with
  | null => exact Or.inl rfl
  | num q =>
    refine Or.inr ⟨q, rfl, ?_⟩
    by_cases hq : q ≤ 0
    · rw [feed_check, if_pos hq] at h
      cases h
    · exact not_le.mp hq
  | str s => cases h
  | list xs => cases h
  | dict kvs => cases h

/-- Helper: a silent face-milling requirement means a positive numeric
depth. -/
theorem face_check_nil {n : ℕ} {depth : Val} (h : face_check n depth = .ok []) :
    ∃ q, depth = .num q ∧ 0 < q := by
  cases depth with
  | num q =>
    refine ⟨q, rfl, ?_⟩
    by_cases hq : q ≤ 0
    · rw [face_check, if_pos hq] at h
      cases h
    · exact not_le.mp hq
  | null => cases h
  | str s => cases h
  | list xs => cases h
  | dict kvs => cases h

/-- Helper: silent drilling requirements mean positive numeric
diameter and depth and a two-element position list. -/
theorem drill_check_nil {n : ℕ} {step : Dict} {depth : Val}
    (h : drill_check n step depth = .ok []) :
    (∃ q, dictGetD step "diameter_mm" .null = .num q ∧ 0 < q) ∧
    (∃ xs, dictGetD step "position" .null = .list xs ∧ xs.length = 2) ∧
    (∃ q, depth = .num q ∧ 0 < q) := by
  rw [drill_check.eq_def] at h
  cases depth with
  | num q =>
    simp only [bind, Except.bind, pure, Except.pure] at h
    by_cases hq : q ≤ 0
    · rw [if_pos hq] at h
      simp only [Except.ok.injEq, List.append_eq_nil] at h
      obtain ⟨-, h3⟩ := h
      cases h3
    · rw [if_neg hq] at h
      simp only [Except.ok.injEq, List.append_eq_nil, List.append_nil] at h
      obtain ⟨h1, h2⟩ := h
      refine ⟨?_, ?_, q, rfl, not_le.mp hq⟩
      · cases hdia : dictGetD step "diameter_mm" .null with
        | num q' =>
          rw [hdia] at h1
          simp only [] at h1
          refine ⟨q', rfl, ?_⟩
          by_cases hq' : q' ≤ 0
          · rw [if_pos hq'] at h1
            cases h1
          · exact not_le.mp hq'
        | str s => rw [hdia] at h1; simp at h1
        | list xs => rw [hdia] at h1; simp at h1
        | dict kvs => rw [hdia] at h1; simp at h1
        | null => rw [hdia] at h1; simp at h1
      · cases hpos : dictGetD step "position" .null with
        | list xs =>
          rw [hpos] at h2
          simp only [] at h2
          refine ⟨xs, rfl, ?_⟩
          by_cases hlen : xs.length = 2
          · exact hlen
          · rw [if_neg hlen] at h2
            cases h2
        | str s => rw [hpos] at h2; simp at h2
        | num q' => rw [hpos] at h2; simp at h2
        | dict kvs => rw [hpos] at h2; simp at h2
        | null => rw [hpos] at h2; simp at h2
  | null =>
    simp only [bind, Except.bind, pure, Except.pure, Except.ok.injEq,
      List.append_eq_nil] at h
    obtain ⟨-, h3⟩ := h
    cases h3
  | str s =>
    simp only [bind, Except.bind] at h
    cases h
  | list xs =>
    simp only [bind, Except.bind] at h
    cases h
  | dict kvs =>
    simp only [bind, Except.bind] at h
    cases h

/-- Helper: a value equal to a string literal under Python equality is
that string. -/
theorem eqStr_eq {v : Val} {s : String} (h : v.eqStr s = true) : v = .str s := by
  cases v <;> simp [Val.eqStr] at h
  case str t => rw [show t = s from h]

/-- Helper: a silent operation check means a supported operation. -/
theorem op_check_nil {n : ℕ} {op : Val} (h : op_check n op = .ok []) :
    op = .str "face_milling" ∨ op = .str "drilling" := by
  cases op with
  | str s =>
    by_cases h1 : (s == "face_milling") = true
    · exact Or.inl (by rw [show s = "face_milling" from beq_iff_eq.mp h1])
    · by_cases h2 : (s == "drilling") = true
      · exact Or.inr (by rw [show s = "drilling" from beq_iff_eq.mp h2])
      · simp [op_check, Val.eqStr, h1, h2] at h
  | num q => simp [op_check, Val.eqStr] at h
  | null => simp [op_check, Val.eqStr] at h
  | list xs => simp [op_check] at h
  | dict kvs => simp [op_check] at h

/-- Helper: a silent per-step run of the validator yields the step
facts every later phase relies on. -/
theorem step_errors_nil_facts {n : ℕ} {step : Dict}
    (h : step_errors n step = .ok []) : StepFacts step := by
  rw [step_errors.eq_def] at h
  simp only [] at h
  cases hop : op_check n (dictGetD step "operation" .null) with
  | error e =>
    rw [hop] at h
    simp only [bind, Except.bind] at h
    cases h
  | ok e_op =>
    rw [hop] at h
    simp only [bind, Except.bind] at h
    by_cases hface : (dictGetD step "operation" .null).eqStr "face_milling" = true
    · rw [if_pos hface] at h
      have hopeq := eqStr_eq hface
      cases hfc : face_check n (dictGetD step "depth_mm" .null) with
      | error e =>
        rw [hfc] at h
        cases h
      | ok v =>
        rw [hfc] at h
        simp only [pure, Except.pure, Except.ok.injEq, List.append_eq_nil] at h
        obtain ⟨⟨⟨⟨⟨h1, h2⟩, h3⟩, h4⟩, h5⟩, h6⟩ := h
        subst h6
        refine ⟨Or.inl hopeq, depth_check_nil h2, tool_check_nil h3,
          rpm_check_nil h4, feed_check_nil h5, fun _ => face_check_nil hfc, ?_⟩
        intro hdr
        rw [hopeq] at hdr
        simp at hdr
    · rw [if_neg hface] at h
      by_cases hdrill : (dictGetD step "operation" .null).eqStr "drilling" = true
      · rw [if_pos hdrill] at h
        have hopeq := eqStr_eq hdrill
        cases hdc : drill_check n step (dictGetD step "depth_mm" .null) with
        | error e =>
          rw [hdc] at h
          cases h
        | ok v =>
          rw [hdc] at h
          simp only [pure, Except.pure, Except.ok.injEq, List.append_eq_nil] at h
          obtain ⟨⟨⟨⟨⟨h1, h2⟩, h3⟩, h4⟩, h5⟩, h6⟩ := h
          subst h6
          refine ⟨Or.inr hopeq, depth_check_nil h2, tool_check_nil h3,
            rpm_check_nil h4, feed_check_nil h5, ?_, fun _ => drill_check_nil hdc⟩
          intro hfm
          rw [hopeq] at hfm
          simp at hfm
      · rw [if_neg hdrill] at h
        simp only [pure, Except.pure, Except.ok.injEq, List.append_eq_nil] at h
        obtain ⟨⟨⟨⟨⟨h1, h2⟩, h3⟩, h4⟩, h5⟩, -⟩ := h
        subst h1
        rcases op_check_nil hop with hopeq | hopeq <;>
          rw [hopeq] at hface hdrill <;>
          simp [Val.eqStr] at hface hdrill

/-- Helper: a present non-null field reads the same under any default. -/
theorem dictGetD_congr {step : Dict} {k : String} {v : Val}
    (hv : dictGetD step k .null = v) (hne : v ≠ .null) (d : Val) :
    dictGetD step k d = v := by
  rw [dictGetD] at hv ⊢
  cases hf : dictFind? step k with
  | none =>
    rw [hf] at hv
    exact absurd hv.symm hne
  | some w =>
    rw [hf] at hv
    simpa using hv

/-- Helper: a looked-up value is the second component of an entry of the
dict. -/
theorem dictFind?_mem {d : Dict} {k : String} {v : Val}
    (h : dictFind? d k = some v) : ∃ p ∈ d, p.2 = v := by
  rw [dictFind?] at h
  cases hf : List.find? (fun p => p.1 == k) d with
  | none => rw [hf] at h; cases h
  | some p =>
    rw [hf] at h
    refine ⟨p, List.mem_of_find?_eq_some hf, ?_⟩
    simpa using h

/-- Helper: a two-entry numeric position list is two numeric values. -/
theorem numList_two {xs : List Val} {qs : List ℚ}
    (h : numListOf? xs = some qs) (hlen : xs.length = 2) :
    ∃ a b, xs = [Val.num a, Val.num b] := by
  obtain ⟨x, y, rfl⟩ := List.length_eq_two.mp hlen
  cases x with
  | num a =>
    cases y with
    | num b => exact ⟨a, b, rfl⟩
    | str s => simp [numListOf?] at h
    | null => simp [numListOf?] at h
    | list l => simp [numListOf?] at h
    | dict d => simp [numListOf?] at h
  | str s => simp [numListOf?] at h
  | null => simp [numListOf?] at h
  | list l => simp [numListOf?] at h
  | dict d => simp [numListOf?] at h

/-- Helper: Python's `min` returns one of its arguments. -/
theorem min_by_dist_mem (d : ℚ) (c : String × ℚ) (cs : List (String × ℚ)) :
    min_by_dist d c cs ∈ c :: cs := by
  obtain ⟨-, l1, l2, hdec, -⟩ := min_by_dist_spec d c cs
  rw [hdec]
  exact List.mem_append_right _ (List.mem_cons_self _ _)

/-- Helper: with a non-empty candidate scan over dict records, the
generator's drill-tool resolution returns some key and its dict record. -/
theorem pick_tool_ok (db : MachiningDB) (c : String × ℚ) (cs : List (String × ℚ))
    (hcands : drill_candidates db.tools = .ok (c :: cs))
    (htools : ToolRecordsWF db) (d : ℚ) :
    ∃ k md, pick_tool_for_drilling db d = .ok (k, .dict md) := by
  rw [pick_tool_for_drilling]
  cases hfind : dictFind? db.tools ("drill_" ++ toString (pyTrunc d) ++ "mm") with
  | some r =>
    obtain ⟨p, hp, hpr⟩ := dictFind?_mem hfind
    obtain ⟨md, hmd⟩ := htools p hp
    exact ⟨_, md, by rw [← hpr, hmd]⟩
  | none =>
    simp only [hcands, bind, Except.bind]
    have hmem := min_by_dist_mem d c cs
    have hsome := drill_candidates_keys db.tools (c :: cs) hcands _ hmem
    cases hf2 : dictFind? db.tools (min_by_dist d c cs).1 with
    | none => rw [hf2] at hsome; cases hsome
    | some r =>
      obtain ⟨p, hp, hpr⟩ := dictFind?_mem hf2
      obtain ⟨md, hmd⟩ := htools p hp
      exact ⟨_, md, by rw [← hpr, hmd]⟩

/-- Helper: an optional rpm field that is absent or a positive number
resolves to some integer in the generator. -/
theorem rpm_opt_ok (v : Val) (dflt : ℤ)
    (hv : v = .null ∨ ∃ q, v = .num q ∧ 0 < q) :
    ∃ rv : ℤ, resolve_rpm v dflt = Except.ok rv := by
  rcases hv with rfl | ⟨q, rfl, hq⟩
  · exact ⟨dflt, rfl⟩
  · have ht : truthy (.num q) = true := by
      simp [truthy, bne_iff_ne, hq.ne']
    rw [resolve_rpm, if_pos ht]
    exact ⟨pyTrunc q, rfl⟩

/-- Helper: an optional feed field that is absent or a positive number
resolves to some rational in the generator. -/
theorem feed_opt_ok (v : Val) (dflt : ℤ)
    (hv : v = .null ∨ ∃ q, v = .num q ∧ 0 < q) :
    ∃ fv : ℚ, resolve_feed v dflt = Except.ok fv := by
  rcases hv with rfl | ⟨q, rfl, hq⟩
  · exact ⟨(dflt : ℚ), rfl⟩
  · have ht : truthy (.num q) = true := by
      simp [truthy, bne_iff_ne, hq.ne']
    rw [resolve_feed, if_pos ht]
    exact ⟨q, rfl⟩

/-- Helper: when the step loop reports nothing at all, every step ran
silently at its own index. -/
theorem plan_step_errors_nil_forall : ∀ (n : ℕ) (plan : List Dict),
    plan_step_errors n plan = .ok [] →
    ∀ step ∈ plan, ∃ m, step_errors m step = .ok [] := by
  intro n plan
  induction plan generalizing n with
  | nil =>
    intro h step hstep
    cases hstep
  | cons s rest ih =>
    intro h step hstep
    rw [plan_step_errors] at h
    cases he : step_errors n s with
    | error e =>
      rw [he] at h
      simp only [bind, Except.bind] at h
      cases h
    | ok e =>
      rw [he] at h
      cases hes : plan_step_errors (n + 1) rest with
      | error e2 =>
        rw [hes] at h
        simp only [bind, Except.bind] at h
        cases h
      | ok es =>
        rw [hes] at h
        simp only [bind, Except.bind, pure, Except.pure, Except.ok.injEq,
          List.append_eq_nil] at h
        obtain ⟨he0, hes0⟩ := h
        rcases List.mem_cons.mp hstep with rfl | hmem
        · exact ⟨n, by rw [he, he0]⟩
        · exact ih (n + 1) (by rw [hes, hes0]) step hmem

/-- Helper: a right append keeps the third character of a string three
characters long or longer. -/
theorem third_keep (s b : String) {c : Char} (h : s.data[2]? = some c) :
    (s ++ b).data[2]? = some c := by
  obtain ⟨hlt, -⟩ := List.getElem?_eq_some.mp h
  rw [(third_append s b hlt).1, h]

/-- Helper: none of the face-milling block's lines has `U` as its third
character (so none is the unsupported-operation comment). -/
theorem face_lines_third (tv : Val) (rv : ℤ) (fv qd : ℚ) :
    ∀ l ∈ ["; -- Face Milling (Tool: " ++ Val.pyStr tv ++ ", RPM: " ++ toString rv ++ ", Feed: " ++ renderQ fv ++ " mm/min) --",
           "G00 X0 Y0 Z5",
           "G01 Z-" ++ fmt3 qd ++ " F" ++ renderQ fv,
           "G01 X50 Y0",
           "G01 X50 Y50",
           "G01 X0 Y50",
           "G01 X0 Y0",
           "G00 Z5"], l.data[2]? ≠ some 'U' := by
  intro l hl
  simp only [List.mem_cons, List.not_mem_nil, or_false] at hl
  have h1 : "; -- Face Milling (Tool: ".data[2]? = some '-' := by decide
  have h3 : "G01 Z-".data[2]? = some '1' := by decide
  rcases hl with rfl | rfl | rfl | rfl | rfl | rfl | rfl | rfl
  · rw [third_keep _ _ (third_keep _ _ (third_keep _ _ (third_keep _ _
      (third_keep _ _ (third_keep _ _ h1)))))]
    decide
  · decide
  · rw [third_keep _ _ (third_keep _ _ (third_keep _ _ h3))]
    decide
  · decide
  · decide
  · decide
  · decide
  · decide

/-- Helper: none of the drilling block's lines has `U` as its third
character. -/
theorem drill_lines_third (tv dv : Val) (rv : ℤ) (fv a b qdep : ℚ) :
    ∀ l ∈ ["; -- Drilling (Tool: " ++ Val.pyStr tv ++ " DIA " ++ Val.pyStr dv ++ "mm, RPM: " ++ toString rv ++ ", Feed: " ++ renderQ fv ++ " mm/min) --",
           "G00 X" ++ fmt3 a ++ " Y" ++ fmt3 b ++ " Z5",
           "G01 Z-" ++ fmt3 qdep ++ " F" ++ renderQ fv,
           "G00 Z5"], l.data[2]? ≠ some 'U' := by
  intro l hl
  simp only [List.mem_cons, List.not_mem_nil, or_false] at hl
  have h1 : "; -- Drilling (Tool: ".data[2]? = some '-' := by decide
  have h2 : "G00 X".data[2]? = some '0' := by decide
  have h3 : "G01 Z-".data[2]? = some '1' := by decide
  rcases hl with rfl | rfl | rfl | rfl
  · rw [third_keep _ _ (third_keep _ _ (third_keep _ _ (third_keep _ _
      (third_keep _ _ (third_keep _ _ (third_keep _ _ (third_keep _ _
      h1)))))))]
    decide
  · rw [third_keep _ _ (third_keep _ _ (third_keep _ _ (third_keep _ _ h2)))]
    decide
  · rw [third_keep _ _ (third_keep _ _ (third_keep _ _ h3))]
    decide
  · decide

/-- Helper: the generator's face-milling branch, given resolved rpm/feed
and a numeric stored depth. -/
theorem step_lines_face (db : MachiningDB) (R F : ℤ) (step : Dict) (rv : ℤ) (fv qd : ℚ)
    (hopf : dictGetD step "operation" Val.null = .str "face_milling")
    (hrv : resolve_rpm (dictGetD step "rpm" Val.null) R = Except.ok rv)
    (hfv : resolve_feed (dictGetD step "feed_rate_mm_per_min" Val.null) F = Except.ok fv)
    (hqd : dictGetD step "depth_mm" Val.null = .num qd) :
    step_lines db R F step = .ok
      ["; -- Face Milling (Tool: " ++ Val.pyStr (dictGetD step "tool" (.str "unknown")) ++ ", RPM: " ++ toString rv ++ ", Feed: " ++ renderQ fv ++ " mm/min) --",
       "G00 X0 Y0 Z5",
       "G01 Z-" ++ fmt3 qd ++ " F" ++ renderQ fv,
       "G01 X50 Y0",
       "G01 X50 Y50",
       "G01 X0 Y50",
       "G01 X0 Y0",
       "G00 Z5"] := by
  have hcond : Val.eqStr (dictGetD step "operation" Val.null) "face_milling" = true := by
    rw [hopf]; decide
  rw [step_lines.eq_def]
  simp only []
  rw [hrv]
  simp only [bind, Except.bind]
  rw [hfv]
  simp only [bind, Except.bind]
  rw [if_pos hcond, dictGetD_congr hqd (by simp) (Val.num (2/10))]
  simp only [pyFloatOf, bind, Except.bind, pure, Except.pure]

/-- Helper: the generator's drilling branch through the tool-resolution
path (no usable step tool, so `_pick_tool_for_drilling` supplies one). -/
theorem step_lines_drill_pick (db : MachiningDB) (R F : ℤ) (step : Dict) (rv : ℤ)
    (fv a b qdia qdep : ℚ) (k : String) (md : Dict)
    (hopd : dictGetD step "operation" Val.null = .str "drilling")
    (hrv : resolve_rpm (dictGetD step "rpm" Val.null) R = Except.ok rv)
    (hfv : resolve_feed (dictGetD step "feed_rate_mm_per_min" Val.null) F = Except.ok fv)
    (hdia : dictGetD step "diameter_mm" Val.null = .num qdia)
    (hdep : dictGetD step "depth_mm" Val.null = .num qdep)
    (hposl : dictGetD step "position" Val.null = .list [.num a, .num b])
    (hcondf : (truthy (dictGetD step "tool" (Val.str "unknown")) &&
        !(Val.eqStr (dictGetD step "tool" (Val.str "unknown")) "unknown")) = false)
    (hpick : pick_tool_for_drilling db qdia = .ok (k, .dict md)) :
    step_lines db R F step = .ok
      ["; -- Drilling (Tool: " ++ Val.pyStr (Val.str k) ++ " DIA " ++ Val.pyStr (dictGetD md "diameter_mm" (.str "?")) ++ "mm, RPM: " ++ toString rv ++ ", Feed: " ++ renderQ fv ++ " mm/min) --",
       "G00 X" ++ fmt3 a ++ " Y" ++ fmt3 b ++ " Z5",
       "G01 Z-" ++ fmt3 qdep ++ " F" ++ renderQ fv,
       "G00 Z5"] := by
  have hcond1 : Val.eqStr (dictGetD step "operation" Val.null) "face_milling" = false := by
    rw [hopd]; decide
  have hcond2 : Val.eqStr (dictGetD step "operation" Val.null) "drilling" = true := by
    rw [hopd]; decide
  rw [step_lines.eq_def]
  simp only []
  rw [hrv]
  simp only [bind, Except.bind]
  rw [hfv]
  simp only [bind, Except.bind]
  rw [if_neg (by simp [hcond1]), if_pos hcond2,
    dictGetD_congr hdia (by simp) (Val.num 3)]
  simp only [pyFloatOf, bind, Except.bind]
  rw [dictGetD_congr hdep (by simp) (Val.num 10)]
  simp only [pyFloatOf, bind, Except.bind]
  rw [dictGetD_congr hposl (by simp) (Val.list [.num 0, .num 0])]
  have hsub0 : pySubscript (Val.list [Val.num a, Val.num b]) 0 = .ok (.num a) := rfl
  have hsub1 : pySubscript (Val.list [Val.num a, Val.num b]) 1 = .ok (.num b) := rfl
  rw [hsub0]
  simp only [bind, Except.bind, pyFloatOf]
  rw [hsub1]
  simp only [bind, Except.bind, pyFloatOf]
  rw [if_neg (by simp [hcondf])]
  rw [hpick]
  simp only [bind, Except.bind, pure, Except.pure, Val.get]

/-- Helper: the generator's drilling branch through a usable step tool
(a non-blank string other than `"unknown"`). -/
theorem step_lines_drill_named (db : MachiningDB) (R F : ℤ) (step : Dict) (rv : ℤ)
    (fv a b qdia qdep : ℚ) (s : String) (md : Dict)
    (hopd : dictGetD step "operation" Val.null = .str "drilling")
    (hrv : resolve_rpm (dictGetD step "rpm" Val.null) R = Except.ok rv)
    (hfv : resolve_feed (dictGetD step "feed_rate_mm_per_min" Val.null) F = Except.ok fv)
    (hdia : dictGetD step "diameter_mm" Val.null = .num qdia)
    (hdep : dictGetD step "depth_mm" Val.null = .num qdep)
    (hposl : dictGetD step "position" Val.null = .list [.num a, .num b])
    (hT : dictGetD step "tool" (Val.str "unknown") = .str s)
    (hcondt : (truthy (dictGetD step "tool" (Val.str "unknown")) &&
        !(Val.eqStr (dictGetD step "tool" (Val.str "unknown")) "unknown")) = true)
    (hmd2 : dictGetD db.tools s (.dict []) = Val.dict md) :
    step_lines db R F step = .ok
      ["; -- Drilling (Tool: " ++ Val.pyStr (Val.str s) ++ " DIA " ++ Val.pyStr (dictGetD md "diameter_mm" (.str "?")) ++ "mm, RPM: " ++ toString rv ++ ", Feed: " ++ renderQ fv ++ " mm/min) --",
       "G00 X" ++ fmt3 a ++ " Y" ++ fmt3 b ++ " Z5",
       "G01 Z-" ++ fmt3 qdep ++ " F" ++ renderQ fv,
       "G00 Z5"] := by
  have hcond1 : Val.eqStr (dictGetD step "operation" Val.null) "face_milling" = false := by
    rw [hopd]; decide
  have hcond2 : Val.eqStr (dictGetD step "operation" Val.null) "drilling" = true := by
    rw [hopd]; decide
  rw [step_lines.eq_def]
  simp only []
  rw [hrv]
  simp only [bind, Except.bind]
  rw [hfv]
  simp only [bind, Except.bind]
  rw [if_neg (by simp [hcond1]), if_pos hcond2,
    dictGetD_congr hdia (by simp) (Val.num 3)]
  simp only [pyFloatOf, bind, Except.bind]
  rw [dictGetD_congr hdep (by simp) (Val.num 10)]
  simp only [pyFloatOf, bind, Except.bind]
  rw [dictGetD_congr hposl (by simp) (Val.list [.num 0, .num 0])]
  have hsub0 : pySubscript (Val.list [Val.num a, Val.num b]) 0 = .ok (.num a) := rfl
  have hsub1 : pySubscript (Val.list [Val.num a, Val.num b]) 1 = .ok (.num b) := rfl
  rw [hsub0]
  simp only [bind, Except.bind, pyFloatOf]
  rw [hsub1]
  simp only [bind, Except.bind, pyFloatOf]
  rw [if_pos hcondt, hT]
  simp only [bind, Except.bind, pure, Except.pure]
  rw [hmd2]
  simp only [Val.get, bind, Except.bind, pure, Except.pure]

/-- Helper: a step the validator passed silently, whose drilling
position (if any) is numeric, yields generator lines none of which is
the unsupported-operation comment. -/
theorem step_lines_ok (db : MachiningDB) (R F : ℤ) (step : Dict)
    (hsf : StepFacts step)
    (hpn : dictGetD step "operation" Val.null = .str "drilling" →
      ∃ xs qs, dictGetD step "position" Val.null = .list xs ∧ numListOf? xs = some qs)
    (c : String × ℚ) (cs : List (String × ℚ))
    (hcands : drill_candidates db.tools = .ok (c :: cs))
    (htools : ToolRecordsWF db) :
    ∃ ls, step_lines db R F step = .ok ls ∧ ∀ l ∈ ls, l.data[2]? ≠ some 'U' := by
  obtain ⟨hopcases, hdepth, htoolf, hrpmf, hfeedf, hface, hdrill⟩ := hsf
  obtain ⟨rv, hrv⟩ := rpm_opt_ok (dictGetD step "rpm" Val.null) R hrpmf
  obtain ⟨fv, hfv⟩ := feed_opt_ok (dictGetD step "feed_rate_mm_per_min" Val.null) F hfeedf
  rcases hopcases with hopf | hopd
  · obtain ⟨qd, hqd, -⟩ := hface hopf
    exact ⟨_, step_lines_face db R F step rv fv qd hopf hrv hfv hqd,
      face_lines_third (dictGetD step "tool" (Val.str "unknown")) rv fv qd⟩
  · obtain ⟨⟨qdia, hdia, -⟩, ⟨xs, hxs, hlen2⟩, ⟨qdep, hdep, -⟩⟩ := hdrill hopd
    obtain ⟨xs2, qs, hxs2, hnum⟩ := hpn hopd
    rw [hxs] at hxs2
    injection hxs2 with hxseq
    subst hxseq
    obtain ⟨a, b, hab⟩ := numList_two hnum hlen2
    subst hab
    rcases htoolf with htnull | ⟨s, hs, hsne⟩
    · have hcondf : (truthy (dictGetD step "tool" (Val.str "unknown")) &&
          !(Val.eqStr (dictGetD step "tool" (Val.str "unknown")) "unknown")) = false := by
        simp only [dictGetD] at htnull ⊢
        cases hf : dictFind? step "tool" with
        | none => decide
        | some w =>
          rw [hf] at htnull
          simp only [Option.getD_some] at htnull ⊢
          rw [htnull]
          decide
      obtain ⟨k, md, hpick⟩ := pick_tool_ok db c cs hcands htools qdia
      exact ⟨_, step_lines_drill_pick db R F step rv fv a b qdia qdep k md hopd hrv hfv
        hdia hdep hxs hcondf hpick,
        drill_lines_third (Val.str k) (dictGetD md "diameter_mm" (Val.str "?")) rv fv a b qdep⟩
    · have hse : s ≠ "" := by
        intro h0
        rw [h0] at hsne
        exact absurd hsne (by decide)
      have hT : dictGetD step "tool" (Val.str "unknown") = .str s :=
        dictGetD_congr hs (by simp) _
      by_cases hsu : s = "unknown"
      · have hcondf : (truthy (dictGetD step "tool" (Val.str "unknown")) &&
            !(Val.eqStr (dictGetD step "tool" (Val.str "unknown")) "unknown")) = false := by
          rw [hT, hsu]
          decide
        obtain ⟨k, md, hpick⟩ := pick_tool_ok db c cs hcands htools qdia
        exact ⟨_, step_lines_drill_pick db R F step rv fv a b qdia qdep k md hopd hrv hfv
          hdia hdep hxs hcondf hpick,
          drill_lines_third (Val.str k) (dictGetD md "diameter_mm" (Val.str "?")) rv fv a b qdep⟩
      · have hcondt : (truthy (dictGetD step "tool" (Val.str "unknown")) &&
            !(Val.eqStr (dictGetD step "tool" (Val.str "unknown")) "unknown")) = true := by
          rw [hT]
          simp [truthy, Val.eqStr, hse, hsu]
        have hmd2x : ∃ md, dictGetD db.tools s (Val.dict []) = Val.dict md := by
          rw [dictGetD]
          cases hf : dictFind? db.tools s with
          | none => exact ⟨[], rfl⟩
          | some r =>
            obtain ⟨p, hp, hpr⟩ := dictFind?_mem hf
            obtain ⟨md, hmd⟩ := htools p hp
            exact ⟨md, by simp [← hpr, hmd]⟩
        obtain ⟨md, hmd2⟩ := hmd2x
        exact ⟨_, step_lines_drill_named db R F step rv fv a b qdia qdep s md hopd hrv hfv
          hdia hdep hxs hT hcondt hmd2,
          drill_lines_third (Val.str s) (dictGetD md "diameter_mm" (Val.str "?")) rv fv a b qdep⟩

/-- Helper: the generator's step loop over a silently validated plan
with numeric drilling positions succeeds, and no produced line is the
unsupported-operation comment. -/
theorem mapM_step_lines_ok (db : MachiningDB) (R F : ℤ) :
    ∀ (plan : List Dict), (∀ step ∈ plan, StepFacts step) →
    (∀ step ∈ plan, dictGetD step "operation" Val.null = .str "drilling" →
      ∃ xs qs, dictGetD step "position" Val.null = .list xs ∧ numListOf? xs = some qs) →
    ∀ (c : String × ℚ) (cs : List (String × ℚ)),
      drill_candidates db.tools = .ok (c :: cs) → ToolRecordsWF db →
    ∃ lls, plan.mapM (step_lines db R F) = .ok lls ∧
      ∀ ls ∈ lls, ∀ l ∈ ls, l.data[2]? ≠ some 'U' := by
  intro plan
  induction plan with
  | nil =>
    intro _ _ c cs _ _
    exact ⟨[], rfl, by simp⟩
  | cons s rest ih =>
    intro hsf hpn c cs hcands htools
    obtain ⟨ls, hls, hlsP⟩ := step_lines_ok db R F s (hsf s (by simp))
      (hpn s (by simp)) c cs hcands htools
    obtain ⟨lls, hlls, hllsP⟩ := ih (fun t ht => hsf t (by simp [ht]))
      (fun t ht => hpn t (by simp [ht])) c cs hcands htools
    refine ⟨ls :: lls, ?_, ?_⟩
    · rw [List.mapM_cons, hls, hlls]
      rfl
    · intro ls2 hls2
      rcases List.mem_cons.mp hls2 with rfl | hm
      · exact hlsP
      · exact hllsP ls2 hm

/-- Helper: the whole generator run over a silently validated plan with
numeric drilling positions: it succeeds, emits the header and terminator
markers, and never the unsupported-operation comment. -/
theorem generate_lines_ok (db : MachiningDB) (plan : List Dict) (material : Val)
    (R2 F2 : ℤ) (hdp : default_params db material = .ok (R2, F2))
    (hsf : ∀ step ∈ plan, StepFacts step)
    (hpn : ∀ step ∈ plan, dictGetD step "operation" Val.null = .str "drilling" →
      ∃ xs qs, dictGetD step "position" Val.null = .list xs ∧ numListOf? xs = some qs)
    (c : String × ℚ) (cs : List (String × ℚ))
    (hcands : drill_candidates db.tools = .ok (c :: cs))
    (htools : ToolRecordsWF db) :
    ∃ lines, generate_lines db plan material = .ok lines ∧
      "; PSEUDO-GCODE GENERATED" ∈ lines ∧ "M30" ∈ lines ∧
      ∀ l ∈ lines, l.data[2]? ≠ some 'U' := by
  have hfirst : first_rpm plan = Val.null ∨
      ∃ q, first_rpm plan = Val.num q ∧ 0 < q := by
    cases plan with
    | nil => exact Or.inl rfl
    | cons s rest =>
      have := (hsf s (by simp)).2.2.2.1
      simpa [first_rpm] using this
  obtain ⟨iv, hiv⟩ := rpm_opt_ok _ R2 hfirst
  obtain ⟨lls, hlls, hllsP⟩ := mapM_step_lines_ok db R2 F2 plan hsf hpn c cs hcands htools
  have hgen : generate_lines db plan material = .ok
      (["; PSEUDO-GCODE GENERATED", "; MATERIAL: " ++ Val.pyStr material, "G90 G21",
        "M03 S" ++ toString iv] ++ lls.flatten ++ ["M05", "M30"]) := by
    rw [generate_lines.eq_def]
    rw [hdp]
    simp only [bind, Except.bind]
    rw [hiv]
    simp only [bind, Except.bind]
    rw [hlls]
    simp only [bind, Except.bind, pure, Except.pure]
  refine ⟨_, hgen, by simp, by simp, ?_⟩
  intro l hl
  rcases List.mem_append.mp hl with hab | hc
  · rcases List.mem_append.mp hab with ha | hb
    · have hM : "; MATERIAL: ".data[2]? = some 'M' := by decide
      have h3 : "M03 S".data[2]? = some '3' := by decide
      simp only [List.mem_cons, List.not_mem_nil, or_false] at ha
      rcases ha with rfl | rfl | rfl | rfl
      · decide
      · rw [third_keep _ _ hM]
        decide
      · decide
      · rw [third_keep _ _ h3]
        decide
    · obtain ⟨ls, hlsm, hlm⟩ := List.mem_flatten.mp hb
      exact hllsP ls hlsm l hlm
  · simp only [List.mem_cons, List.not_mem_nil, or_false] at hc
    rcases hc with rfl | rfl
    · decide
    · decide

/-- Helper: every record of the demo tool table is a dict. -/
theorem machining_db_tools_wf : ToolRecordsWF machining_db := by
  intro p hp
  simp only [machining_db, List.mem_cons, List.not_mem_nil, or_false] at hp
  rcases hp with rfl | rfl | rfl | rfl <;> exact ⟨_, rfl⟩

/-- C4 (amended): a plan that passes structural validation *and* whose
drilling steps carry numeric position coordinates generates a program
that passes post-generation validation, with no unsupported-operation
comment; the numeric-position proviso is the correction — structural
validation alone does not imply it. -/
theorem valid_numeric_plan_roundtrip (db : MachiningDB) (plan : List Dict)
    (material : Val) (R2 F2 : ℤ) (c : String × ℚ) (cs : List (String × ℚ))
    (hval : validate plan none = .ok (true, []))
    (hpn : DrillPositionsNumeric plan)
    (hdp : default_params db material = .ok (R2, F2))
    (hcands : drill_candidates db.tools = .ok (c :: cs))
    (htools : ToolRecordsWF db) :
    ∃ lines, generate_lines db plan material = .ok lines ∧
      NoUnsupportedLine lines ∧
      generate_pseudo_gcode db plan material = .ok (joinLines lines) ∧
      validate plan (some (joinLines lines)) = .ok (true, []) := by
  obtain ⟨-, e3, he3, herr⟩ := validate_ok_shape plan none true [] hval
  have hsplit := herr.symm
  rw [List.append_eq_nil, List.append_eq_nil] at hsplit
  obtain ⟨⟨hA, hC⟩, hB⟩ := hsplit
  have hplanne : plan.isEmpty = false := by
    cases hb : plan.isEmpty with
    | false => rfl
    | true => rw [if_pos hb] at hA; cases hA
  have he3x : plan_step_errors 1 plan = .ok [] := hB ▸ he3
  have hsf : ∀ step ∈ plan, StepFacts step := by
    intro step hstep
    obtain ⟨m, hm⟩ := plan_step_errors_nil_forall 1 plan he3x step hstep
    exact step_errors_nil_facts hm
  have hpn2 : ∀ step ∈ plan, dictGetD step "operation" Val.null = .str "drilling" →
      ∃ xs qs, dictGetD step "position" Val.null = .list xs ∧ numListOf? xs = some qs := by
    intro step hstep hop
    exact hpn step hstep (by rw [hop]; decide)
  obtain ⟨lines, hlines, hhdr, hm30, h3rd⟩ :=
    generate_lines_ok db plan material R2 F2 hdp hsf hpn2 c cs hcands htools
  refine ⟨lines, hlines, ?_, ?_, ?_⟩
  · intro v hv
    exact h3rd _ hv (third_unsupported v)
  · rw [generate_pseudo_gcode, hlines]
    rfl
  · have hgx : gcode_errors_opt (some (joinLines lines)) = [] := by
      rw [gcode_errors_opt]
      exact gcode_errors_nil_of_markers lines hhdr hm30
    rw [validate.eq_def]
    simp only [he3x, bind, Except.bind, pure, Except.pure]
    rw [hgx, if_neg (by simp [hplanne])]
    rfl

set_option maxRecDepth 40000 in
/-- C4 counterexample: `c4_plan` passes structural validation, yet the
generator crashes on it with `float(None)` — the claimed round trip does
not even reach post-generation validation. -/
theorem valid_plan_generation_crash :
    validate c4_plan none = .ok (true, []) ∧
    generate_pseudo_gcode machining_db c4_plan (.str "aluminum_6061") =
      .error (.typeError "float() argument must be a number, not NoneType") :=
  ⟨by with_unfolding_all rfl, by with_unfolding_all rfl⟩

/-- Witness for C4 at the one-step face-milling plan against the demo
knowledge base: all hypotheses hold concretely and the round trip goes
through. -/
theorem valid_numeric_plan_roundtrip_witness :
    ∃ lines, generate_lines machining_db [face_ok_step] (.str "aluminum_6061") = .ok lines ∧
      NoUnsupportedLine lines ∧
      generate_pseudo_gcode machining_db [face_ok_step] (.str "aluminum_6061") =
        .ok (joinLines lines) ∧
      validate [face_ok_step] (some (joinLines lines)) = .ok (true, []) :=
  valid_numeric_plan_roundtrip machining_db [face_ok_step] (.str "aluminum_6061")
    12000 800 ("drill_3mm", 3) [("drill_6mm", 6), ("drill_10mm", 10)]
    (by with_unfolding_all rfl)
    (by
      intro step hstep hop
      simp only [List.mem_singleton] at hstep
      subst hstep
      exact absurd hop (by decide))
    (by with_unfolding_all rfl)
    (by with_unfolding_all rfl)
    machining_db_tools_wf

/-- Helper: over a well-formed materials table the generator's
material-parameter fallback always succeeds (unknown keys fall back to
`(1000, 100)`). -/
theorem default_params_total (db : MachiningDB) (hmat : MaterialsWF db) (m : String) :
    ∃ R2 F2 : ℤ, default_params db (.str m) = .ok (R2, F2) := by
  rw [default_params]
  cases hfind : dictFind? db.materials m with
  | none =>
    have hmp : material_params db (.str m) =
        .error (.valueError s!"Unknown material: {Val.pyStr (Val.str m)}") := by
      rw [material_params.eq_def]
      simp only [hfind, bind, Except.bind, pure, Except.pure]
    rw [hmp]
    exact ⟨1000, 100, rfl⟩
  | some v =>
    obtain ⟨md, R, F, hv, h1, h2, h3, h4, h5⟩ := hmat m v hfind
    subst hv
    have hmp : material_params db (.str m) = .ok (pyTrunc R, pyTrunc F) := by
      rw [material_params.eq_def]
      simp only [hfind, bind, Except.bind, pure, Except.pure, Val.get, h1, h4, pyIntOf]
    rw [hmp]
    exact ⟨_, _, rfl⟩

/-- Helper: the rule-based planner on a spec with a string material and
no drill holes emits exactly the face-milling step. -/
theorem rule_based_plan_face_only (spec : Dict) (m : String)
    (hmat1 : dictGetD spec "material" (.str "aluminum_6061") = .str m)
    (hholes1 : pyOr (dictGetD spec "drill_holes" .null) (.list []) = .list [])
    (hm : m.length ≤ 400) :
    ∃ R F : ℚ, rule_based_plan_process machining_db spec =
      .ok [⟨"face_milling", some (2/10), none, none, some "endmill_6mm", some R, some F,
        some ("Face top surface for " ++ Val.pyStr (.str m))⟩] ∧
      0 < R ∧ R.den = 1 ∧ 0 < F := by
  obtain ⟨R, F, hRv, hR, hRden, hFv, hF⟩ : ∃ R F,
      (dictGetD machining_db.materials m (.dict [])).get "recommended_rpm" (.num 1000) =
        .ok (.num R) ∧ 0 < R ∧ R.den = 1 ∧
      (dictGetD machining_db.materials m (.dict [])).get "recommended_feed_mm_per_min"
        (.num 100) = .ok (.num F) ∧ 0 < F := by
    cases hfind : dictFind? machining_db.materials m with
    | none =>
      have hmd : dictGetD machining_db.materials m (.dict []) = .dict [] := by
        rw [dictGetD, hfind]
        rfl
      refine ⟨1000, 100, ?_, by norm_num, by with_unfolding_all rfl, ?_, by norm_num⟩ <;>
        (simp only [hmd, Val.get]; simp [dictGetD, dictFind?, List.find?])
    | some v =>
      obtain ⟨md, R, F, hv, h1, h2, h3, h4, h5⟩ := machining_db_materials_wf m v hfind
      have hmd : dictGetD machining_db.materials m (.dict []) = .dict md := by
        rw [dictGetD, hfind]
        exact hv
      refine ⟨R, F, ?_, h2, h3, ?_, h5⟩ <;>
        (simp only [hmd, Val.get]; first
          | rw [h1]
          | rw [h4])
  have hfmt : Val.get (dictGetD machining_db.operations "face_milling" (.dict []))
      "default_tool" (.str "endmill_6mm") = .ok (.str "endmill_6mm") := by
    with_unfolding_all rfl
  have hnotes : ("Face top surface for " ++ Val.pyStr (.str m)).length ≤ 500 := by
    simp only [Val.pyStr, String.length_append]
    have h21 : ("Face top surface for " : String).length = 21 := by decide
    omega
  have hface := mkPlanStep_face "endmill_6mm" ("Face top surface for " ++ Val.pyStr (.str m))
    R F hR hRden hF hnotes
  refine ⟨R, F, ?_, hR, hRden, hF⟩
  rw [rule_based_plan_process]
  simp only [hmat1, hholes1, bind, Except.bind, pure, Except.pure]
  simp only [hRv, hFv]
  simp only [hfmt]
  simp only [hface, pyIterate]
  rfl

/-- Helper: the validator's per-step checks all pass silently on the
dumped face-milling step of the rule-based planner. -/
theorem face_dump_step_errors (n : ℕ) (R F : ℚ) (notes : String) (hR : 0 < R)
    (hF : 0 < F) :
    step_errors n (PlanStep.dump ⟨"face_milling", some (2/10), none, none,
      some "endmill_6mm", some R, some F, some notes⟩) = .ok [] := by
  have hop : dictGetD (PlanStep.dump ⟨"face_milling", some (2/10), none, none,
      some "endmill_6mm", some R, some F, some notes⟩) "operation" Val.null =
      .str "face_milling" := by with_unfolding_all rfl
  have hdep : dictGetD (PlanStep.dump ⟨"face_milling", some (2/10), none, none,
      some "endmill_6mm", some R, some F, some notes⟩) "depth_mm" Val.null =
      .num (2/10) := by with_unfolding_all rfl
  have htool : dictGetD (PlanStep.dump ⟨"face_milling", some (2/10), none, none,
      some "endmill_6mm", some R, some F, some notes⟩) "tool" Val.null =
      .str "endmill_6mm" := by with_unfolding_all rfl
  have hrpm : dictGetD (PlanStep.dump ⟨"face_milling", some (2/10), none, none,
      some "endmill_6mm", some R, some F, some notes⟩) "rpm" Val.null = .num R := by
    with_unfolding_all rfl
  have hfeed : dictGetD (PlanStep.dump ⟨"face_milling", some (2/10), none, none,
      some "endmill_6mm", some R, some F, some notes⟩) "feed_rate_mm_per_min" Val.null =
      .num F := by with_unfolding_all rfl
  have hoc : op_check n (Val.str "face_milling") = .ok [] := by
    with_unfolding_all rfl
  have hdc : depth_check n (Val.num (2/10)) = [] := by
    rw [depth_check, if_neg (by norm_num)]
  have htc : tool_check n (Val.str "endmill_6mm") = [] := by with_unfolding_all rfl
  have hrc : rpm_check n (Val.num R) = [] := by
    rw [rpm_check, if_neg (not_le.mpr hR)]
  have hfcv : feed_check n (Val.num F) = [] := by
    rw [feed_check, if_neg (not_le.mpr hF)]
  have hfcx : face_check n (Val.num (2/10)) = .ok [] := by
    rw [face_check, if_neg (by norm_num)]
  rw [step_errors.eq_def]
  simp only []
  rw [hop, hoc]
  simp only [bind, Except.bind]
  rw [hdep, htool, hrpm, hfeed, hdc, htc, hrc, hfcv]
  rw [if_pos (by decide : Val.eqStr (Val.str "face_milling") "face_milling" = true), hfcx]
  simp only [bind, Except.bind, pure, Except.pure]
  rfl

/-- Helper: the one-step dumped face-milling plan passes the whole step
loop silently. -/
theorem face_dump_plan_errors (R F : ℚ) (notes : String) (hR : 0 < R) (hF : 0 < F) :
    plan_step_errors 1 [PlanStep.dump ⟨"face_milling", some (2/10), none, none,
      some "endmill_6mm", some R, some F, some notes⟩] = .ok [] := by
  rw [plan_step_errors, face_dump_step_errors 1 R F notes hR hF]
  rfl

/-- Helper: the one-step dumped face-milling plan validates cleanly
against any program text that passes the G-code checks. -/
theorem face_dump_validate (R F : ℚ) (notes : String) (hR : 0 < R) (hF : 0 < F)
    (g : Option String) (hg : gcode_errors_opt g = []) :
    validate [PlanStep.dump ⟨"face_milling", some (2/10), none, none,
      some "endmill_6mm", some R, some F, some notes⟩] g = .ok (true, []) := by
  rw [validate.eq_def]
  simp only [face_dump_plan_errors R F notes hR hF, bind, Except.bind, pure, Except.pure]
  rw [hg]
  rfl

/-- Helper: the whole pipeline on a spec with a string material and no
drill-hole list runs to the spec's promised face-only outcome. -/
theorem run_face_only_core (spec : Dict) (m : String)
    (hmat0 : dictGetD spec "material" (.str "unknown") = .str m)
    (hmat1 : dictGetD spec "material" (.str "aluminum_6061") = .str m)
    (hholes0 : dictGetD spec "drill_holes" (.list []) = .list [])
    (hholes1 : pyOr (dictGetD spec "drill_holes" .null) (.list []) = .list [])
    (hm : m.length ≤ 400) :
    FaceOnlyResult (run machining_db spec) := by
  obtain ⟨R, F, hplan, hR, hRden, hF⟩ := rule_based_plan_face_only spec m hmat1 hholes1 hm
  obtain ⟨R2, F2, hdp⟩ := default_params_total machining_db machining_db_materials_wf m
  have hplanp : plan_process machining_db spec = .ok
      [⟨"face_milling", some (2/10), none, none, some "endmill_6mm", some R, some F,
        some ("Face top surface for " ++ Val.pyStr (.str m))⟩] := by
    rw [plan_process]
    exact hplan
  have hsf : ∀ step ∈ [PlanStep.dump ⟨"face_milling", some (2/10), none, none,
      some "endmill_6mm", some R, some F,
      some ("Face top surface for " ++ Val.pyStr (.str m))⟩], StepFacts step := by
    intro step hstep
    simp only [List.mem_singleton] at hstep
    subst hstep
    exact step_errors_nil_facts (face_dump_step_errors 1 R F _ hR hF)
  have hpn : ∀ step ∈ [PlanStep.dump ⟨"face_milling", some (2/10), none, none,
      some "endmill_6mm", some R, some F,
      some ("Face top surface for " ++ Val.pyStr (.str m))⟩],
      dictGetD step "operation" Val.null = .str "drilling" →
      ∃ xs qs, dictGetD step "position" Val.null = .list xs ∧ numListOf? xs = some qs := by
    intro step hstep hopd
    simp only [List.mem_singleton] at hstep
    subst hstep
    rw [show dictGetD (PlanStep.dump ⟨"face_milling", some (2/10), none, none,
      some "endmill_6mm", some R, some F,
      some ("Face top surface for " ++ Val.pyStr (.str m))⟩) "operation" Val.null =
        .str "face_milling" from by with_unfolding_all rfl] at hopd
    injection hopd with h
    exact absurd h (by decide)
  obtain ⟨lines, hlines, hhdr, hm30, h3rd⟩ := generate_lines_ok machining_db
    [PlanStep.dump ⟨"face_milling", some (2/10), none, none, some "endmill_6mm",
      some R, some F, some ("Face top surface for " ++ Val.pyStr (.str m))⟩]
    (.str m) R2 F2 hdp hsf hpn ("drill_3mm", 3) [("drill_6mm", 6), ("drill_10mm", 10)]
    (by with_unfolding_all rfl) machining_db_tools_wf
  have hgen : generate_pseudo_gcode machining_db
      [PlanStep.dump ⟨"face_milling", some (2/10), none, none, some "endmill_6mm",
        some R, some F, some ("Face top surface for " ++ Val.pyStr (.str m))⟩]
      (.str m) = .ok (joinLines lines) := by
    rw [generate_pseudo_gcode, hlines]
    rfl
  have hval1 := face_dump_validate R F ("Face top surface for " ++ Val.pyStr (.str m))
    hR hF none rfl
  have hval2 := face_dump_validate R F ("Face top surface for " ++ Val.pyStr (.str m))
    hR hF (some (joinLines lines))
    (by rw [gcode_errors_opt]; exact gcode_errors_nil_of_markers lines hhdr hm30)
  refine ⟨⟨[PlanStep.dump ⟨"face_milling", some (2/10), none, none, some "endmill_6mm",
      some R, some F, some ("Face top surface for " ++ Val.pyStr (.str m))⟩],
      some (joinLines lines), true, []⟩,
    PlanStep.dump ⟨"face_milling", some (2/10), none, none, some "endmill_6mm",
      some R, some F, some ("Face top surface for " ++ Val.pyStr (.str m))⟩,
    joinLines lines, ?_, rfl, rfl, rfl, rfl, ?_, ?_⟩
  · rw [run.eq_def]
    simp only []
    rw [hholes0]
    simp only [pyLen, bind, Except.bind]
    rw [hplanp]
    simp only [List.map_cons, List.map_nil]
    rw [hval1]
    simp only []
    rw [if_neg (by decide)]
    rw [hmat0, hgen]
    simp only []
    rw [hval2]
    simp only []
    rw [if_neg (by decide)]
    rfl
  · with_unfolding_all rfl
  · with_unfolding_all rfl

set_option maxRecDepth 40000 in
/-- C2 (code bug): for every string material (of reasonable length) a
spec with `drill_holes` absent or `[]` runs to exactly one face-milling
step of depth 0.2 mm with `valid = true`; but the equally well-formed
`drill_holes: null` spec — which `PartSpec` admits and the spec's
scenario 1 names — crashes `run` with a `TypeError` at the un-guarded
logging prelude instead of returning a result. -/
theorem face_only_run_spec :
    (∀ m : String, m.length ≤ 400 →
      FaceOnlyResult (run machining_db [("material", .str m)]) ∧
      FaceOnlyResult (run machining_db [("material", .str m), ("drill_holes", .list [])])) ∧
    run machining_db [("material", .str "aluminum_6061"), ("drill_holes", .null)] =
      .error (.typeError "object of type NoneType has no len()") := by
  refine ⟨?_, by with_unfolding_all rfl⟩
  intro m hm
  constructor
  · exact run_face_only_core [("material", .str m)] m (by with_unfolding_all rfl)
      (by with_unfolding_all rfl) (by with_unfolding_all rfl)
      (by with_unfolding_all rfl) hm
  · exact run_face_only_core [("material", .str m), ("drill_holes", .list [])] m
      (by with_unfolding_all rfl) (by with_unfolding_all rfl)
      (by with_unfolding_all rfl) (by with_unfolding_all rfl) hm

set_option maxRecDepth 40000 in
/-- C1 (code bug): whenever the un-guarded logging prelude survives
(`len(spec.get("drill_holes", []))` evaluates), `run` returns a
result whose flag and error list agree (`valid = true` with no errors,
or `valid = false` with at least one); but the prelude itself sits
outside every `try`, so the PartSpec-admissible input
`{material: "steel_1018", drill_holes: null}` raises a `TypeError`
past the pipeline boundary. -/
theorem run_result_discipline :
    (∀ (db : MachiningDB) (spec : Dict),
      (∃ n, pyLen (dictGetD spec "drill_holes" (.list [])) = .ok n) →
      ∃ r, run db spec = .ok r ∧
        ((r.valid = true ∧ r.errors = []) ∨ (r.valid = false ∧ r.errors ≠ []))) ∧
    run machining_db [("material", .str "steel_1018"), ("drill_holes", .null)] =
      .error (.typeError "object of type NoneType has no len()") := by
  refine ⟨?_, by with_unfolding_all rfl⟩
  rintro db spec ⟨n, hn⟩
  rw [run.eq_def]
  simp only []
  rw [hn]
  simp only [bind, Except.bind]
  cases hpp : plan_process db spec with
  | error e =>
    exact ⟨_, rfl, Or.inr ⟨rfl, by simp⟩⟩
  | ok steps =>
    simp only []
    cases hv : validate (steps.map PlanStep.dump) none with
    | error e =>
      exact ⟨_, rfl, Or.inr ⟨rfl, by simp⟩⟩
    | ok p =>
      obtain ⟨valid, errors⟩ := p
      simp only []
      obtain ⟨hb, -⟩ := validate_ok_shape _ _ _ _ hv
      cases valid with
      | false =>
        have hne : errors ≠ [] := by
          intro h0
          rw [h0] at hb
          simp at hb
        exact ⟨_, rfl, Or.inr ⟨rfl, hne⟩⟩
      | true =>
        cases hg : generate_pseudo_gcode db (steps.map PlanStep.dump)
            (dictGetD spec "material" (.str "unknown")) with
        | error e =>
          exact ⟨_, rfl, Or.inr ⟨rfl, by simp⟩⟩
        | ok g =>
          simp only []
          cases hv2 : validate (steps.map PlanStep.dump) (some g) with
          | error e =>
            exact ⟨_, rfl, Or.inr ⟨rfl, by simp⟩⟩
          | ok p2 =>
            obtain ⟨valid2, errors2⟩ := p2
            simp only []
            obtain ⟨hb2, -⟩ := validate_ok_shape _ _ _ _ hv2
            cases valid2 with
            | false =>
              have hne2 : errors2 ≠ [] := by
                intro h0
                rw [h0] at hb2
                simp at hb2
              exact ⟨_, rfl, Or.inr ⟨rfl, hne2⟩⟩
            | true =>
              exact ⟨_, rfl, Or.inl ⟨rfl, rfl⟩⟩

end ProcessAgent

